import Mathlib

/-!
Verification development for the user-based collaborative filtering model
(`userCF/model.py`): the similarity-matrix builder, the recommendation
ranker and the evaluation loop, embedded shallowly with Python dicts as
insertion-ordered association lists and float similarity values modeled
exactly.
-/

namespace UserCF

/-- Row of the tabular event log: `visitorid`, `itemid`, `event`
(event 1 encodes a plain view; 2 and 3 are add-to-cart and transaction). -/
structure Row where
  visitorid : Nat
  itemid : Nat
  event : Nat
  deriving DecidableEq

/-- Association-list model of a Python `dict` with `Nat` keys: `lookup` finds
the first binding, and an upsert updates an existing binding in place or
appends a new one at the end, matching insertion-ordered dict semantics. -/
abbrev Dict (V : Type) : Type := List (Nat × V)

def Dict.lookup {V : Type} : Dict V → Nat → Option V
  | [], _ => none
  | (k', v) :: rest, k => if k' = k then some v else Dict.lookup rest k

/-- Python upsert: the try/except-KeyError read-modify-write patterns of the
source are instances of this with the appropriate `f`. -/
def Dict.update {V : Type} : Dict V → Nat → (Option V → V) → Dict V
  | [], k, f => [(k, f none)]
  | (k', v) :: rest, k, f =>
      if k' = k then (k', f (some v)) :: rest else (k', v) :: Dict.update rest k f

/-- Stable insertion sort: `x` is placed before the first element `y` of the
already-sorted suffix with `le x y`. Python's `sorted` is a stable sort and
all stable sorts produce the same output, so with the reversed comparison
this reproduces `sorted(..., key=lambda item: item[1], reverse=True)`
exactly; unlike a merge sort it is structurally recursive, so concrete
executions reduce inside the kernel. -/
def insertStable {β : Type} (le : β → β → Bool) (x : β) : List β → List β
  | [] => [x]
  | y :: ys => if le x y then x :: y :: ys else y :: insertStable le x ys

/-- Stable sort driver, inserting elements from the right. -/
def stableSort {β : Type} (le : β → β → Bool) : List β → List β
  | [] => []
  | x :: xs => insertStable le x (stableSort le xs)

/-- Iteration order this model fixes for Python's unspecified set iteration
order: ascending ids, computed structurally from the underlying multiset so
that concrete executions reduce inside the kernel. -/
def sortAsc (s : Finset Nat) : List Nat :=
  Quot.liftOn s.val (stableSort (fun a b => a ≤ b)) (by
    have hins : ∀ (y : Nat) (m : List Nat),
        (insertStable (fun a b => a ≤ b) y m).Perm (y :: m) := by
      intro y m
      induction m with
      | nil => exact List.Perm.refl _
      | cons z zs ihm =>
        rw [insertStable]
        by_cases h : (decide (y ≤ z)) = true
        · rw [if_pos h]
        · rw [if_neg h]
          exact (ihm.cons z).trans (List.Perm.swap y z zs)
    have hperm : ∀ l : List Nat, (stableSort (fun a b => a ≤ b) l).Perm l := by
      intro l
      induction l with
      | nil => exact List.Perm.refl _
      | cons x xs ih => exact (hins x _).trans (ih.cons x)
    have hsins : ∀ (y : Nat) (m : List Nat), List.Sorted (· ≤ ·) m →
        List.Sorted (· ≤ ·) (insertStable (fun a b => a ≤ b) y m) := by
      intro y m
      induction m with
      | nil =>
        intro _
        simp [insertStable]
      | cons z zs ihm =>
        intro hm
        rw [List.sorted_cons] at hm
        rw [insertStable]
        by_cases h : (decide (y ≤ z)) = true
        · rw [if_pos h, List.sorted_cons]
          refine ⟨?_, List.sorted_cons.2 hm⟩
          intro b hb
          rcases List.mem_cons.1 hb with rfl | hb
          · exact of_decide_eq_true h
          · exact le_trans (of_decide_eq_true h) (hm.1 b hb)
        · rw [if_neg h, List.sorted_cons]
          constructor
          · intro b hb
            have hb2 := (hins y zs).mem_iff.1 hb
            rcases List.mem_cons.1 hb2 with rfl | hb3
            · exact le_of_not_le (fun hc => h (decide_eq_true hc))
            · exact hm.1 b hb3
          · exact ihm hm.2
    have hsorted : ∀ l : List Nat, List.Sorted (· ≤ ·) (stableSort (fun a b => a ≤ b) l) := by
      intro l
      induction l with
      | nil => exact List.sorted_nil
      | cons x xs ih => exact hsins x _ ih
    intro l1 l2 h12
    exact List.eq_of_perm_of_sorted
      ((hperm l1).trans ((h12 : l1.Perm l2).trans (hperm l2).symm))
      (hsorted l1) (hsorted l2))

/-- Exact value of a similarity-matrix cell. `⟨a, b, d⟩` denotes the real
number `a + b / √d`. A raw co-occurrence count `c` is `⟨c, 0, 1⟩`; a
normalized entry of a fresh build is `⟨0, c, m⟩`, denoting `c / √m`. The
fragment is closed under the operations the modeled executions perform:
incrementing by one, and dividing by `√m` a value that is either rational or
carries the same radical `√m`. `Val.divSqrt` reports `none` when an execution
leaves the fragment; none of the executions studied here does. -/
structure Val where
  a : ℚ
  b : ℚ
  d : Nat
  deriving DecidableEq

/-- Fresh count 1, created when a user pair is first seen sharing an item. -/
def Val.one : Val := ⟨1, 0, 1⟩

/-- Python `count_dict[user_B_id] += 1` on an existing value. -/
def Val.bump (v : Val) : Val := ⟨v.a + 1, v.b, v.d⟩

/-- Division by `√m`, the source's `count[another_user_id] /= sqrt(...)`,
within the representable fragment. -/
def Val.divSqrt (v : Val) (m : Nat) : Option Val :=
  if v.d = 1 then some ⟨0, v.a + v.b, m⟩
  else if v.d = m then some ⟨v.b / (v.d : ℚ), v.a, m⟩
  else none

/-- Decides `a + b / √d ≤ 1` (for `1 ≤ d`), the source's
`assert count[another_user_id] <= 1`. -/
def Val.leOne (v : Val) : Bool :=
  if v.b ≤ 0 then
    if 0 ≤ 1 - v.a then true else decide ((1 - v.a) ^ 2 * (v.d : ℚ) ≤ v.b ^ 2)
  else decide (0 ≤ 1 - v.a ∧ v.b ^ 2 ≤ (1 - v.a) ^ 2 * (v.d : ℚ))

/-- State of a `UserCF` model instance: `users` maps a user id to its
`covered_items` set, `items` maps an item id to its `covered_users` set, and
`user_sim_matrix` is the dict-of-dicts similarity matrix. The matrix value
type is a parameter: the entries are Python floats in the source, modeled
exactly as `Val` on the builder side and as exact rationals `ℚ` on the
ranking/evaluation side (every float is a rational number). -/
structure State (α : Type) where
  users : Dict (Finset Nat)
  items : Dict (Finset Nat)
  user_sim_matrix : Dict (Dict α)
  k : Nat
  n : Nat
  ensure_new : Bool

/-- Constructor `UserCF.__init__`: empty user/item stores and a similarity
matrix holding an empty sub-dict for every declared user id. -/
def initState (α : Type) (all_user_id : List Nat) (k n : Nat) (ensure_new : Bool) :
    State α :=
  ⟨[], [],
    all_user_id.foldl (fun m u => if (Dict.lookup m u).isSome then m else m ++ [(u, [])]) [],
    k, n, ensure_new⟩

/-- Method `form_item_objects`: one pass over the event rows, recording
`item.covered_users.add(user_id)` and `user.covered_items.add(item_id)`,
creating each record on first encounter. -/
def form_item_objects {α : Type} (s : State α) (event_data : List Row) : State α :=
  event_data.foldl
    (fun s row =>
      { s with
        items := s.items.update row.itemid (fun o => insert row.visitorid (o.getD ∅))
        users := s.users.update row.visitorid (fun o => insert row.itemid (o.getD ∅)) })
    s

/-- Method `update_user_count_dict`: in user A's count dict (created empty on
a miss), add 1 to user B's value, starting from 1 when B is absent. -/
def update_user_count_dict (m : Dict (Dict Val)) (user_A_id user_B_id : Nat) :
    Dict (Dict Val) :=
  m.update user_A_id (fun o =>
    (o.getD []).update user_B_id (fun ov =>
      match ov with
      | some v => v.bump
      | none => Val.one))

/-- All index pairs `i < j` of a list, as ordered pairs, mirroring the
source's `for i in range(len(users)-1): for j in range(i+1, len(users))`. -/
def listPairs {β : Type} : List β → List (β × β)
  | [] => []
  | x :: xs => xs.map (fun y => (x, y)) ++ listPairs xs

/-- First phase of `form_users_distance_matrix`: for every item, iterate over
all unordered pairs of its covered users and bump both directional counts.
Python iterates `list(item.covered_users)` in unspecified set order; the model
fixes ascending id order (the final counts do not depend on the order). -/
def accumulate_counts (items : Dict (Finset Nat)) (m : Dict (Dict Val)) :
    Dict (Dict Val) :=
  items.foldl
    (fun m p =>
      (listPairs (sortAsc p.2)).foldl
        (fun m q => update_user_count_dict (update_user_count_dict m q.1 q.2) q.2 q.1) m)
    m

/-- Failure modes of `form_users_distance_matrix`. `boundViolation` is the
failed `assert count[...] <= 1` (AssertionError, the spec's
SimilarityBoundViolation); `keyError` is an uncaught KeyError at
`self.users[another_user_id]`; `notRepresentable` flags an execution leaving
the exact value fragment of `Val`, a modeling artifact never reached in the
executions studied here. -/
inductive BuildError
  | boundViolation
  | keyError
  | notRepresentable
  deriving DecidableEq

/-- Inner loop of the normalization phase: divide each count in one user's
count dict by `sqrt(all_count * all_count_another)` and assert the bound. -/
def normalize_counts (users : Dict (Finset Nat)) (all_count : Nat) :
    Dict Val → Except BuildError (Dict Val)
  | [] => .ok []
  | (bid, v) :: rest =>
    match Dict.lookup users bid with
    | none => .error .keyError
    | some covB =>
      match v.divSqrt (all_count * covB.card) with
      | none => .error .notRepresentable
      | some v' =>
        if v'.leOne then
          match normalize_counts users all_count rest with
          | .ok rest' => .ok ((bid, v') :: rest')
          | .error e => .error e
        else .error .boundViolation

/-- Outer loop of the normalization phase: a matrix key absent from
`self.users` is skipped (`continue`), keeping its count dict as is. -/
def normalize_matrix (users : Dict (Finset Nat)) :
    Dict (Dict Val) → Except BuildError (Dict (Dict Val))
  | [] => .ok []
  | (uid, cd) :: rest =>
    match Dict.lookup users uid with
    | none =>
      match normalize_matrix users rest with
      | .ok rest' => .ok ((uid, cd) :: rest')
      | .error e => .error e
    | some covU =>
      match normalize_counts users covU.card cd with
      | .ok cd' =>
        match normalize_matrix users rest with
        | .ok rest' => .ok ((uid, cd') :: rest')
        | .error e => .error e
      | .error e => .error e

/-- Method `form_users_distance_matrix`: keep only strong-signal events
(`event != 1`), populate the entity store, accumulate pairwise co-occurrence
counts, then normalize each count by the square root of the product of the
two users' covered-item counts, asserting every normalized value is at most 1.
The unused `metric` parameter of the source is dropped. -/
def form_users_distance_matrix (s : State Val) (event_data : List Row) :
    Except BuildError (State Val) :=
  let filtered := event_data.filter (fun row => row.event ≠ 1)
  let s1 := form_item_objects s filtered
  let m1 := accumulate_counts s1.items s1.user_sim_matrix
  match normalize_matrix s1.users m1 with
  | .ok m2 => .ok { s1 with user_sim_matrix := m2 }
  | .error e => .error e

/-- Strong-signal rows, the builder's filter `event_data['event'] != 1`. -/
def strongRows (rows : List Row) : List Row := rows.filter (fun r => r.event ≠ 1)

/-- Item ids a user interacts with in a row list (set semantics). -/
def rowCovItems (rows : List Row) (u : Nat) : Finset Nat :=
  ((rows.filter (fun r => r.visitorid = u)).map (fun r => r.itemid)).toFinset

/-- User ids interacting with an item in a row list (set semantics). -/
def rowCovUsers (rows : List Row) (i : Nat) : Finset Nat :=
  ((rows.filter (fun r => r.itemid = i)).map (fun r => r.visitorid)).toFinset

/-- Double lookup `m[A][B]`, as an `Option`. -/
def matrixEntry {α : Type} (m : Dict (Dict α)) (A B : Nat) : Option α :=
  match Dict.lookup m A with
  | none => none
  | some cd => Dict.lookup cd B

/-- Model state on the ranking/evaluation side, with similarity values as
exact rationals (Python floats are rational numbers). -/
abbrev StateQ : Type := State ℚ

/-- Result of `make_recommendation`: a list of item ids, one of the integer
error codes the source returns (-1 for no co-users, -2 for the caught
KeyError of an unknown user, -3 for the unreachable empty-ranking branch), or
an uncaught AssertionError from `assert len(items_rank) > 0`. -/
inductive RecoResult
  | ok (items : List Nat)
  | code (c : Int)
  | assertionError
  deriving DecidableEq

/-- Method `rank_potential_items`: for each related user, add its similarity
(`score = similarity * 1`) to every item it covers, skipping under
`ensure_new` the items the target already covers. Returns `none` on any of
the KeyErrors (`self.users[...]`, `self.user_sim_matrix[...][...]`) that the
caller's `except KeyError` turns into code -2. Python iterates the
`covered_items` set in unspecified order; the model fixes ascending id order
(only dict insertion order, hence tie order, depends on it). -/
def rank_potential_items (s : StateQ) (target_user_id : Nat)
    (related_users_id : List Nat) : Option (Dict ℚ) :=
  match Dict.lookup s.users target_user_id with
  | none => none
  | some target_cov =>
    related_users_id.foldlM
      (fun items_rank user_id =>
        match Dict.lookup s.users user_id with
        | none => none
        | some similar_cov =>
          match matrixEntry s.user_sim_matrix target_user_id user_id with
          | none => none
          | some similarity =>
            some ((sortAsc similar_cov).foldl
              (fun items_rank item_id =>
                if s.ensure_new = true ∧ item_id ∈ target_cov then items_rank
                else items_rank.update item_id (fun o =>
                  match o with
                  | some sc => sc + similarity * 1
                  | none => similarity * 1))
              items_rank))
      []

/-- Method `get_top_n_items`: sort the ranked items by score descending
(Python's stable `sorted(..., reverse=True)`) and keep the first `n` ids. -/
def get_top_n_items (n : Nat) (items_rank : Dict ℚ) : List Nat :=
  let sorted_rank := stableSort (fun x y => y.2 ≤ x.2) items_rank
  let items_id := sorted_rank.map (fun x => x.1)
  if items_id.length < n then items_id else items_id.take n

/-- Method `make_recommendation`: the whole body runs inside
`try ... except KeyError: return -2`. Note the `assert len(items_rank) > 0`
sits before the `ensure_new` empty check, so an empty ranking raises an
uncaught AssertionError and the `return -3` branch below the assert is
unreachable; both are modeled faithfully. -/
def make_recommendation (s : StateQ) (user_id : Nat) : RecoResult :=
  match Dict.lookup s.users user_id with
  | none => .code (-2)
  | some _ =>
    match Dict.lookup s.user_sim_matrix user_id with
    | none => .code (-2)
    | some related_users =>
      if related_users.length = 0 then .code (-1)
      else
        let sorted_rel := stableSort (fun x y => y.2 ≤ x.2) related_users
        let related_users_id :=
          if s.k ≤ sorted_rel.length then (sorted_rel.take s.k).map (fun x => x.1)
          else sorted_rel.map (fun x => x.1)
        match rank_potential_items s user_id related_users_id with
        | none => .code (-2)
        | some items_rank =>
          if 0 < items_rank.length then
            if s.ensure_new = true ∧ items_rank.length = 0 then .code (-3)
            else .ok (get_top_n_items s.n items_rank)
          else .assertionError

/-- Outcome of `compute_n_hit`: a hit count with the recommended list, or the
integer -1 whose tuple unpacking raises the TypeError the evaluator catches
(a skipped user), or a propagating AssertionError. -/
inductive HitResult
  | ok (n_hit : Nat) (reco : List Nat)
  | notAList
  | assertionError
  deriving DecidableEq

/-- Method `compute_n_hit`: recommend, then count the true items appearing in
the recommended list; error codes become the non-list value -1. -/
def compute_n_hit (s : StateQ) (user_id : Nat) (real_items : List Nat) : HitResult :=
  match make_recommendation s user_id with
  | .ok reco => .ok ((real_items.filter (fun i => i ∈ reco)).length) reco
  | .code _ => .notAList
  | .assertionError => .assertionError

/-- Unique elements of a list in first-appearance order, `pd.unique`. -/
def uniqueFirst (l : List Nat) : List Nat :=
  l.foldl (fun acc x => if x ∈ acc then acc else acc ++ [x]) []

/-- Return value of `evaluate`, the dict
`{'recall': ..., 'precision': ..., 'coverage': ...}`. The first field carries
a prime only because its bare name is a keyword here. -/
structure EvalMetrics where
  recall' : ℚ
  precision : ℚ
  coverage : ℚ
  deriving DecidableEq

/-- Failure modes of `evaluate`. All but `assertionError` are Python
ZeroDivisionError at distinct program points: `zeroReco` at
`precision = n_hit/len(reco_items)` for an empty recommendation list
(possible only when `n = 0`), `noValidUsers` at
`recall = total_recall/n_valid_users` (the spec's NoValidUsers), and
`emptyCatalog` at the coverage division. -/
inductive EvalError
  | assertionError
  | zeroReco
  | noValidUsers
  | emptyCatalog
  deriving DecidableEq

/-- Loop accumulator of `evaluate`: running recall and precision sums, the
count of valid users and the set of covered items. -/
structure EvalAcc where
  total_recall : ℚ
  total_precision : ℚ
  n_valid_users : Nat
  covered_items : Finset Nat
  deriving DecidableEq

/-- One iteration of the `evaluate` loop, for one unique test user: compute
the user's true items, try to recommend, skip the user on a non-list result
(TypeError), propagate an AssertionError, otherwise accumulate the metrics. -/
def evaluate_step (s : StateQ) (test_data : List Row) (acc : EvalAcc) (user_id : Nat) :
    Except EvalError EvalAcc :=
  let real_items :=
    uniqueFirst ((test_data.filter (fun r => r.visitorid = user_id)).map (fun r => r.itemid))
  match compute_n_hit s user_id real_items with
  | .notAList => .ok acc
  | .assertionError => .error .assertionError
  | .ok n_hit reco_items =>
    if reco_items.length = 0 then .error .zeroReco
    else .ok
      ⟨acc.total_recall + (n_hit : ℚ) / (real_items.length : ℚ),
       acc.total_precision + (n_hit : ℚ) / (reco_items.length : ℚ),
       acc.n_valid_users + 1,
       acc.covered_items ∪ reco_items.toFinset⟩

/-- Method `evaluate`: loop over the unique test users, then divide the
accumulated recall and precision by the number of valid users and the number
of covered items by the catalog size. A zero denominator is a raised
ZeroDivisionError, never a silent NaN. -/
def evaluate (s : StateQ) (test_data : List Row) : Except EvalError EvalMetrics :=
  let users_id := uniqueFirst (test_data.map (fun r => r.visitorid))
  match users_id.foldlM (evaluate_step s test_data) (⟨0, 0, 0, ∅⟩ : EvalAcc) with
  | .error e => .error e
  | .ok acc =>
    if acc.n_valid_users = 0 then .error .noValidUsers
    else if s.items.length = 0 then .error .emptyCatalog
    else .ok
      ⟨acc.total_recall / (acc.n_valid_users : ℚ),
       acc.total_precision / (acc.n_valid_users : ℚ),
       (acc.covered_items.card : ℚ) / (s.items.length : ℚ)⟩

/-- One increment of a possibly-missing count, the net effect of
`update_user_count_dict` on a single cell. -/
def bump1 : Option Val → Val
  | some v => v.bump
  | none => Val.one

/-- Iterated increments of a possibly-missing count. -/
def bumpN (o : Option Val) : Nat → Option Val
  | 0 => o
  | c + 1 => some (bump1 (bumpN o c))

/-- Invoke the build a second time on the model produced by a first build,
the rebuild scenario of the idempotence property. -/
def rebuild (s : State Val) (event_data : List Row) : Except BuildError (State Val) :=
  match form_users_distance_matrix s event_data with
  | .ok s1 => form_users_distance_matrix s1 event_data
  | .error e => .error e

/-- Matrix cell of a finished build, `none` when the build failed. -/
def buildMatrixEntry (e : Except BuildError (State Val)) (A B : Nat) : Option Val :=
  match e with
  | .ok s => matrixEntry s.user_sim_matrix A B
  | .error _ => none

/-- User mapping of a finished build, empty when the build failed. -/
def buildUsers (e : Except BuildError (State Val)) : Dict (Finset Nat) :=
  match e with
  | .ok s => s.users
  | .error _ => []

/-- Item mapping of a finished build, empty when the build failed. -/
def buildItems (e : Except BuildError (State Val)) : Dict (Finset Nat) :=
  match e with
  | .ok s => s.items
  | .error _ => []

/-- Covered items of a co-user, as the ranker reads them. -/
def coUserCov (s : StateQ) (b : Nat) : Finset Nat := (Dict.lookup s.users b).getD ∅

/-- Similarity of a co-user to the target user, as the ranker reads it. -/
def simTo (s : StateQ) (u b : Nat) : ℚ := (matrixEntry s.user_sim_matrix u b).getD 0

/-- Three-user scenario of the spec: U1 covers items {A,B} = {10,11}, U2
covers {A,B,C} = {10,11,12}, U3 covers {C} = {12}; all events strong. -/
def scenarioRows : List Row :=
  [⟨1, 10, 2⟩, ⟨1, 11, 2⟩, ⟨2, 10, 2⟩, ⟨2, 11, 2⟩, ⟨2, 12, 2⟩, ⟨3, 12, 2⟩]

/-- Fresh build on the three-user scenario. -/
def scenarioBuild : Except BuildError (State Val) :=
  form_users_distance_matrix (initState Val [1, 2, 3] 80 20 true) scenarioRows

/-- Rebuild counterexample data: U1 covers {10}, U2 covers {10,11,12,13},
so the denominator 1*4 is a perfect square and both builds stay within exact
rational arithmetic. -/
def rebuildRows : List Row :=
  [⟨1, 10, 2⟩, ⟨2, 10, 2⟩, ⟨2, 11, 2⟩, ⟨2, 12, 2⟩, ⟨2, 13, 2⟩]

/-- Fresh model for the rebuild counterexample. -/
def rebuildInit : State Val := initState Val [1, 2] 80 20 true

/-- Bound-violation data: U1 and U2 both cover exactly {10, 11}, so a first
build stores similarity 1 and a second build on the same model must trip the
`assert count <= 1`. -/
def boundRows : List Row := [⟨1, 10, 2⟩, ⟨1, 11, 2⟩, ⟨2, 10, 2⟩, ⟨2, 11, 2⟩]

/-- Fresh model for the bound-violation scenario. -/
def boundInit : State Val := initState Val [1, 2] 80 20 true

/-- Ranker-side state realizing the spec's recommendation scenario: U1 covers
{10,11}, U2 covers {10,11,12}, positive symmetric similarity between them,
k = 1, n = 2, prevent-repeat on. Expected recommendation for U1: [12]. -/
def rankState : StateQ :=
  ⟨[(1, {10, 11}), (2, {10, 11, 12})], [(10, {1, 2}), (11, {1, 2}), (12, {2})],
   [(1, [(2, 4/5)]), (2, [(1, 4/5)])], 1, 2, true⟩

/-- State with a known user (3) holding similar users but whose every
candidate item is filtered out by the prevent-repeat policy: user 3 covers
{10} and its only co-user 4 covers exactly {10}. -/
def emptyRankState : StateQ :=
  ⟨[(3, {10}), (4, {10})], [(10, {3, 4})],
   [(3, [(4, 1/2)]), (4, [(3, 1/2)])], 1, 2, true⟩

/-- Evaluation state containing both a well-served user (1) and a user (3)
whose accumulated ranking is empty after filtering. -/
def evalCrashState : StateQ :=
  ⟨[(1, {10, 11}), (2, {10, 11, 12}), (3, {10}), (4, {10})],
   [(10, {1, 2, 3, 4}), (11, {1, 2}), (12, {2})],
   [(1, [(2, 1/2)]), (2, [(1, 1/2)]), (3, [(4, 1/3)]), (4, [(3, 1/3)])], 1, 2, true⟩

/-- Test rows for the crash scenario: user 1 truly likes item 12 (a hit for
the recommendation [12]), user 3 likes item 11 but cannot be served. -/
def evalCrashRows : List Row := [⟨1, 12, 2⟩, ⟨3, 11, 2⟩]

/-- Model trained on nothing: every test user is unknown to it. -/
def emptyModelState : StateQ := ⟨[], [], [], 1, 2, true⟩

theorem Dict.lookup_update_self {V : Type} (d : Dict V) (k : Nat) (f : Option V → V) :
    Dict.lookup (d.update k f) k = some (f (Dict.lookup d k)) := by
  induction d with
  | nil => simp [Dict.update, Dict.lookup]
  | cons p rest ih =>
    obtain ⟨k', v⟩ := p
    by_cases h : k' = k
    · subst h
      simp [Dict.update, Dict.lookup]
    · simp [Dict.update, Dict.lookup, h, ih]

theorem Dict.lookup_update_ne {V : Type} (d : Dict V) {k k' : Nat} (f : Option V → V)
    (h : k ≠ k') : Dict.lookup (d.update k f) k' = Dict.lookup d k' := by
  induction d with
  | nil => simp [Dict.update, Dict.lookup, h]
  | cons p rest ih =>
    obtain ⟨k'', v⟩ := p
    by_cases h2 : k'' = k
    · subst h2
      simp [Dict.update, Dict.lookup, h]
    · by_cases h3 : k'' = k'
      · subst h3
        simp [Dict.update, Dict.lookup, h2]
      · simp [Dict.update, Dict.lookup, h2, h3, ih]

theorem Dict.lookup_mem {V : Type} {d : Dict V} {k : Nat} {v : V}
    (h : Dict.lookup d k = some v) : (k, v) ∈ d := by
  induction d with
  | nil => simp [Dict.lookup] at h
  | cons p rest ih =>
    obtain ⟨k', v'⟩ := p
    simp only [Dict.lookup] at h
    by_cases h2 : k' = k
    · rw [if_pos h2] at h
      injection h with h3
      subst h2
      subst h3
      exact List.mem_cons_self _ _
    · rw [if_neg h2] at h
      exact List.mem_cons_of_mem _ (ih h)

theorem Dict.lookup_isSome_iff {V : Type} (d : Dict V) (k : Nat) :
    (Dict.lookup d k).isSome = true ↔ k ∈ d.map Prod.fst := by
  induction d with
  | nil => simp [Dict.lookup]
  | cons p rest ih =>
    obtain ⟨k', v⟩ := p
    by_cases h : k' = k
    · subst h
      simp [Dict.lookup]
    · simp [Dict.lookup, h, ih, Ne.symm h]

theorem Dict.lookup_eq_of_mem {V : Type} {d : Dict V} (hnd : (d.map Prod.fst).Nodup)
    {k : Nat} {v : V} (hm : (k, v) ∈ d) : Dict.lookup d k = some v := by
  induction d with
  | nil => simp at hm
  | cons p rest ih =>
    obtain ⟨k', v'⟩ := p
    simp only [List.map_cons, List.nodup_cons] at hnd
    rcases List.mem_cons.1 hm with h | h
    · rw [Prod.ext_iff] at h
      obtain ⟨h1, h2⟩ := h
      simp only at h1 h2
      subst h1
      subst h2
      simp [Dict.lookup]
    · have hk : k' ≠ k := by
        intro he
        exact hnd.1 (List.mem_map.2 ⟨(k, v), h, he.symm⟩)
      simp [Dict.lookup, hk, ih hnd.2 h]

theorem Dict.keys_update {V : Type} (d : Dict V) (k : Nat) (f : Option V → V) :
    (d.update k f).map Prod.fst =
      if (Dict.lookup d k).isSome = true then d.map Prod.fst else d.map Prod.fst ++ [k] := by
  induction d with
  | nil => simp [Dict.update, Dict.lookup]
  | cons p rest ih =>
    obtain ⟨k', v⟩ := p
    by_cases h : k' = k
    · subst h
      simp [Dict.update, Dict.lookup]
    · simp only [Dict.update, if_neg h, List.map_cons, ih, Dict.lookup]
      by_cases h2 : (Dict.lookup rest k).isSome = true
      · rw [if_pos h2, if_pos h2]
      · rw [if_neg h2, if_neg h2]
        simp

theorem Dict.nodupKeys_update {V : Type} (d : Dict V) (k : Nat) (f : Option V → V)
    (h : (d.map Prod.fst).Nodup) : ((d.update k f).map Prod.fst).Nodup := by
  rw [Dict.keys_update]
  by_cases h2 : (Dict.lookup d k).isSome = true
  · simp [h2, h]
  · have hk : k ∉ d.map Prod.fst := by
      intro hm
      exact h2 ((Dict.lookup_isSome_iff d k).2 hm)
    rw [if_neg h2]
    refine List.nodup_append.2 ⟨h, List.nodup_singleton _, ?_⟩
    intro x hx hxk
    rw [List.mem_singleton] at hxk
    subst hxk
    exact hk hx

theorem Dict.mem_update {V : Type} {d : Dict V} {k : Nat} {f : Option V → V} {p : Nat × V}
    (hp : p ∈ d.update k f) : p ∈ d ∨ p = (k, f (Dict.lookup d k)) := by
  induction d with
  | nil =>
    simp [Dict.update] at hp
    right
    simp [hp, Dict.lookup]
  | cons q rest ih =>
    obtain ⟨k', v⟩ := q
    by_cases h : k' = k
    · subst h
      simp only [Dict.update, if_pos rfl, Dict.lookup] at hp ⊢
      rcases List.mem_cons.1 hp with h2 | h2
      · right
        simp [h2]
      · left
        exact List.mem_cons_of_mem _ h2
    · simp only [Dict.update, if_neg h, Dict.lookup, if_neg h] at hp ⊢
      rcases List.mem_cons.1 hp with h2 | h2
      · left
        exact h2 ▸ List.mem_cons_self _ _
      · rcases ih h2 with h3 | h3
        · left
          exact List.mem_cons_of_mem _ h3
        · right
          exact h3

theorem Dict.update_eq_self {V : Type} {d : Dict V} {k : Nat} {v : V} (f : Option V → V)
    (h : Dict.lookup d k = some v) (hf : f (some v) = v) : d.update k f = d := by
  induction d with
  | nil => simp [Dict.lookup] at h
  | cons p rest ih =>
    obtain ⟨k', v'⟩ := p
    simp only [Dict.lookup] at h
    by_cases h2 : k' = k
    · rw [if_pos h2] at h
      injection h with h3
      subst h2
      subst h3
      simp [Dict.update, hf]
    · rw [if_neg h2] at h
      simp [Dict.update, h2, ih h]

theorem insertStable_perm {β : Type} (le : β → β → Bool) (x : β) (l : List β) :
    (insertStable le x l).Perm (x :: l) := by
  induction l with
  | nil => exact List.Perm.refl _
  | cons y ys ih =>
    rw [insertStable]
    by_cases h : le x y = true
    · rw [if_pos h]
    · rw [if_neg h]
      exact (ih.cons y).trans (List.Perm.swap x y ys)

theorem stableSort_perm {β : Type} (le : β → β → Bool) (l : List β) :
    (stableSort le l).Perm l := by
  induction l with
  | nil => exact List.Perm.refl _
  | cons x xs ih => exact (insertStable_perm le x _).trans (ih.cons x)

theorem sorted_insertStable {β : Type} (le : β → β → Bool)
    (htot : ∀ a b, (le a b || le b a) = true)
    (htr : ∀ a b c, le a b = true → le b c = true → le a c = true)
    (x : β) (l : List β) (hl : l.Pairwise (fun a b => le a b = true)) :
    (insertStable le x l).Pairwise (fun a b => le a b = true) := by
  induction l with
  | nil => simp [insertStable]
  | cons y ys ih =>
    rw [List.pairwise_cons] at hl
    rw [insertStable]
    by_cases h : le x y = true
    · rw [if_pos h, List.pairwise_cons]
      refine ⟨?_, List.pairwise_cons.2 hl⟩
      intro b hb
      rcases List.mem_cons.1 hb with rfl | hb
      · exact h
      · exact htr x y b h (hl.1 b hb)
    · rw [if_neg h, List.pairwise_cons]
      constructor
      · intro b hb
        have hb2 := (insertStable_perm le x ys).mem_iff.1 hb
        rcases List.mem_cons.1 hb2 with hbx | hb3
        · have htot2 := htot x y
          rw [Bool.or_eq_true] at htot2
          rcases htot2 with h2 | h2
          · exact absurd h2 h
          · rw [hbx]
            exact h2
        · exact hl.1 b hb3
      · exact ih hl.2

theorem sorted_stableSort {β : Type} (le : β → β → Bool)
    (htot : ∀ a b, (le a b || le b a) = true)
    (htr : ∀ a b c, le a b = true → le b c = true → le a c = true)
    (l : List β) :
    (stableSort le l).Pairwise (fun a b => le a b = true) := by
  induction l with
  | nil => exact List.Pairwise.nil
  | cons x xs ih => exact sorted_insertStable le htot htr x _ ih

theorem mem_sortAsc {s : Finset Nat} {a : Nat} : a ∈ sortAsc s ↔ a ∈ s := by
  rcases s with ⟨m, hm⟩
  revert hm
  refine Quot.inductionOn m ?_
  intro l hm
  show a ∈ stableSort (fun a b => a ≤ b) l ↔ _
  rw [(stableSort_perm _ l).mem_iff]
  exact Iff.rfl

theorem sortAsc_nodup (s : Finset Nat) : (sortAsc s).Nodup := by
  rcases s with ⟨m, hm⟩
  revert hm
  refine Quot.inductionOn m ?_
  intro l hm
  show (stableSort (fun a b => a ≤ b) l).Nodup
  exact (stableSort_perm _ l).nodup_iff.2 hm

theorem rowCovItems_cons_self {r : Row} {rest : List Row} {u : Nat} (h : r.visitorid = u) :
    rowCovItems (r :: rest) u = insert r.itemid (rowCovItems rest u) := by
  simp [rowCovItems, List.filter_cons, h]

theorem rowCovItems_cons_ne {r : Row} {rest : List Row} {u : Nat} (h : r.visitorid ≠ u) :
    rowCovItems (r :: rest) u = rowCovItems rest u := by
  simp [rowCovItems, List.filter_cons, h]

theorem rowCovUsers_cons_self {r : Row} {rest : List Row} {i : Nat} (h : r.itemid = i) :
    rowCovUsers (r :: rest) i = insert r.visitorid (rowCovUsers rest i) := by
  simp [rowCovUsers, List.filter_cons, h]

theorem rowCovUsers_cons_ne {r : Row} {rest : List Row} {i : Nat} (h : r.itemid ≠ i) :
    rowCovUsers (r :: rest) i = rowCovUsers rest i := by
  simp [rowCovUsers, List.filter_cons, h]

theorem mem_rowCovItems {rows : List Row} {u i : Nat} :
    i ∈ rowCovItems rows u ↔ ∃ r ∈ rows, r.visitorid = u ∧ r.itemid = i := by
  unfold rowCovItems
  simp only [List.mem_toFinset, List.mem_map, List.mem_filter, decide_eq_true_eq]
  constructor
  · rintro ⟨r, ⟨hr, hu⟩, hi⟩
    exact ⟨r, hr, hu, hi⟩
  · rintro ⟨r, hr, hu, hi⟩
    exact ⟨r, ⟨hr, hu⟩, hi⟩

theorem mem_rowCovUsers {rows : List Row} {u i : Nat} :
    u ∈ rowCovUsers rows i ↔ ∃ r ∈ rows, r.visitorid = u ∧ r.itemid = i := by
  unfold rowCovUsers
  simp only [List.mem_toFinset, List.mem_map, List.mem_filter, decide_eq_true_eq]
  constructor
  · rintro ⟨r, ⟨hr, hi⟩, hu⟩
    exact ⟨r, hr, hu, hi⟩
  · rintro ⟨r, hr, hu, hi⟩
    exact ⟨r, ⟨hr, hi⟩, hu⟩

theorem covItems_iff_covUsers {rows : List Row} {u i : Nat} :
    i ∈ rowCovItems rows u ↔ u ∈ rowCovUsers rows i := by
  rw [mem_rowCovItems, mem_rowCovUsers]

theorem mem_visitors_iff_nonempty (rows : List Row) (u : Nat) :
    u ∈ rows.map Row.visitorid ↔ (rowCovItems rows u).Nonempty := by
  constructor
  · intro h
    obtain ⟨r, hr, hu⟩ := List.mem_map.1 h
    exact ⟨r.itemid, mem_rowCovItems.2 ⟨r, hr, hu, rfl⟩⟩
  · rintro ⟨i, hi⟩
    obtain ⟨r, hr, hu, _⟩ := mem_rowCovItems.1 hi
    exact List.mem_map.2 ⟨r, hr, hu⟩

theorem mem_itemids_iff_nonempty (rows : List Row) (i : Nat) :
    i ∈ rows.map Row.itemid ↔ (rowCovUsers rows i).Nonempty := by
  constructor
  · intro h
    obtain ⟨r, hr, hi⟩ := List.mem_map.1 h
    exact ⟨r.visitorid, mem_rowCovUsers.2 ⟨r, hr, rfl, hi⟩⟩
  · rintro ⟨u, hu⟩
    obtain ⟨r, hr, _, hi⟩ := mem_rowCovUsers.1 hu
    exact List.mem_map.2 ⟨r, hr, hi⟩

theorem rowCovItems_eq_empty {rows : List Row} {u : Nat}
    (h : u ∉ rows.map Row.visitorid) : rowCovItems rows u = ∅ := by
  by_contra hc
  exact h ((mem_visitors_iff_nonempty rows u).2 (Finset.nonempty_of_ne_empty hc))

theorem rowCovUsers_eq_empty {rows : List Row} {i : Nat}
    (h : i ∉ rows.map Row.itemid) : rowCovUsers rows i = ∅ := by
  by_contra hc
  exact h ((mem_itemids_iff_nonempty rows i).2 (Finset.nonempty_of_ne_empty hc))

theorem lookup_users_form_item_objects {α : Type} (rows : List Row) (s : State α) (u : Nat) :
    Dict.lookup (form_item_objects s rows).users u =
      if u ∈ rows.map Row.visitorid then
        some ((Dict.lookup s.users u).getD ∅ ∪ rowCovItems rows u)
      else Dict.lookup s.users u := by
  induction rows generalizing s with
  | nil => simp [form_item_objects]
  | cons r rest ih =>
    have hstep : form_item_objects s (r :: rest) =
        form_item_objects
          { s with
            items := s.items.update r.itemid (fun o => insert r.visitorid (o.getD ∅))
            users := s.users.update r.visitorid (fun o => insert r.itemid (o.getD ∅)) } rest := rfl
    rw [hstep, ih]
    by_cases hv : r.visitorid = u
    · have hself : Dict.lookup (s.users.update r.visitorid
          (fun o => insert r.itemid (o.getD ∅))) u =
          some (insert r.itemid ((Dict.lookup s.users u).getD ∅)) := by
        subst hv
        exact Dict.lookup_update_self s.users r.visitorid _
      have hmem : u ∈ (r :: rest).map Row.visitorid := by
        simp [hv]
      rw [if_pos hmem]
      by_cases hrest : u ∈ rest.map Row.visitorid
      · rw [if_pos hrest, hself, rowCovItems_cons_self hv]
        simp only [Option.getD_some, Option.some.injEq]
        rw [Finset.union_insert, Finset.insert_union]
      · rw [if_neg hrest, hself, rowCovItems_cons_self hv,
          rowCovItems_eq_empty hrest]
        rw [Finset.union_insert, Finset.union_empty]
    · have hne : Dict.lookup (s.users.update r.visitorid
          (fun o => insert r.itemid (o.getD ∅))) u = Dict.lookup s.users u :=
        Dict.lookup_update_ne s.users _ hv
      have hmem : u ∈ (r :: rest).map Row.visitorid ↔ u ∈ rest.map Row.visitorid := by
        simp only [List.map_cons, List.mem_cons]
        constructor
        · rintro (h1 | h1)
          · exact absurd h1.symm hv
          · exact h1
        · exact fun h1 => Or.inr h1
      rw [rowCovItems_cons_ne hv]
      by_cases hrest : u ∈ rest.map Row.visitorid
      · rw [if_pos hrest, if_pos (hmem.2 hrest), hne]
      · rw [if_neg hrest, if_neg (fun hc => hrest (hmem.1 hc)), hne]

theorem lookup_items_form_item_objects {α : Type} (rows : List Row) (s : State α) (i : Nat) :
    Dict.lookup (form_item_objects s rows).items i =
      if i ∈ rows.map Row.itemid then
        some ((Dict.lookup s.items i).getD ∅ ∪ rowCovUsers rows i)
      else Dict.lookup s.items i := by
  induction rows generalizing s with
  | nil => simp [form_item_objects]
  | cons r rest ih =>
    have hstep : form_item_objects s (r :: rest) =
        form_item_objects
          { s with
            items := s.items.update r.itemid (fun o => insert r.visitorid (o.getD ∅))
            users := s.users.update r.visitorid (fun o => insert r.itemid (o.getD ∅)) } rest := rfl
    rw [hstep, ih]
    by_cases hv : r.itemid = i
    · have hself : Dict.lookup (s.items.update r.itemid
          (fun o => insert r.visitorid (o.getD ∅))) i =
          some (insert r.visitorid ((Dict.lookup s.items i).getD ∅)) := by
        subst hv
        exact Dict.lookup_update_self s.items r.itemid _
      have hmem : i ∈ (r :: rest).map Row.itemid := by
        simp [hv]
      rw [if_pos hmem]
      by_cases hrest : i ∈ rest.map Row.itemid
      · rw [if_pos hrest, hself, rowCovUsers_cons_self hv]
        simp only [Option.getD_some, Option.some.injEq]
        rw [Finset.union_insert, Finset.insert_union]
      · rw [if_neg hrest, hself, rowCovUsers_cons_self hv,
          rowCovUsers_eq_empty hrest]
        rw [Finset.union_insert, Finset.union_empty]
    · have hne : Dict.lookup (s.items.update r.itemid
          (fun o => insert r.visitorid (o.getD ∅))) i = Dict.lookup s.items i :=
        Dict.lookup_update_ne s.items _ hv
      have hmem : i ∈ (r :: rest).map Row.itemid ↔ i ∈ rest.map Row.itemid := by
        simp only [List.map_cons, List.mem_cons]
        constructor
        · rintro (h1 | h1)
          · exact absurd h1.symm hv
          · exact h1
        · exact fun h1 => Or.inr h1
      rw [rowCovUsers_cons_ne hv]
      by_cases hrest : i ∈ rest.map Row.itemid
      · rw [if_pos hrest, if_pos (hmem.2 hrest), hne]
      · rw [if_neg hrest, if_neg (fun hc => hrest (hmem.1 hc)), hne]

theorem matrixEntry_bind {α : Type} (m : Dict (Dict α)) (A B : Nat) :
    matrixEntry m A B = (Dict.lookup m A).bind (fun cd => Dict.lookup cd B) := by
  unfold matrixEntry
  cases Dict.lookup m A <;> rfl

theorem matrixEntry_ucd (m : Dict (Dict Val)) (x y A B : Nat) :
    matrixEntry (update_user_count_dict m x y) A B =
      if x = A ∧ y = B then some (bump1 (matrixEntry m A B)) else matrixEntry m A B := by
  have hbump : (fun ov => match ov with | some v => Val.bump v | none => Val.one) = bump1 := by
    funext o
    cases o <;> rfl
  rw [matrixEntry_bind, matrixEntry_bind]
  unfold update_user_count_dict
  rw [hbump]
  by_cases hx : x = A
  · subst hx
    rw [Dict.lookup_update_self]
    by_cases hy : y = B
    · subst hy
      rw [if_pos ⟨rfl, rfl⟩, Option.some_bind, Dict.lookup_update_self]
      cases h : Dict.lookup m x with
      | none => simp [Dict.lookup]
      | some cd => simp
    · rw [if_neg (fun hc => hy hc.2), Option.some_bind, Dict.lookup_update_ne _ _ hy]
      cases h : Dict.lookup m x with
      | none => simp [Dict.lookup]
      | some cd => simp
  · rw [if_neg (fun hc => hx hc.1), Dict.lookup_update_ne _ _ hx]

theorem bumpN_add (o : Option Val) (a b : Nat) :
    bumpN o (a + b) = bumpN (bumpN o a) b := by
  induction b with
  | zero => rfl
  | succ b ih => rw [Nat.add_succ, bumpN, bumpN, ih]

theorem bumpN_none (c : Nat) (hc : 0 < c) : bumpN none c = some ⟨(c : ℚ), 0, 1⟩ := by
  induction c with
  | zero => exact absurd hc (lt_irrefl 0)
  | succ c ih =>
    rcases Nat.eq_zero_or_pos c with h | h
    · subst h
      simp [bumpN, bump1, Val.one]
    · rw [bumpN, ih h]
      simp only [bump1, Val.bump, Val.mk.injEq, and_true]
      push_cast
      ring_nf

theorem listPairs_ne {l : List Nat} (h : l.Nodup) :
    ∀ q ∈ listPairs l, q.1 ≠ q.2 := by
  induction l with
  | nil =>
    intro q hq
    simp [listPairs] at hq
  | cons x xs ih =>
    intro q hq
    rw [listPairs, List.mem_append] at hq
    rcases hq with hq | hq
    · obtain ⟨y, hy, rfl⟩ := List.mem_map.1 hq
      intro he
      have hxy : x = y := he
      subst hxy
      exact (List.nodup_cons.1 h).1 hy
    · exact ih (List.nodup_cons.1 h).2 q hq

theorem countP_eq_mem {xs : List Nat} (h : xs.Nodup) (B : Nat) :
    xs.countP (fun y => decide (y = B)) = if B ∈ xs then 1 else 0 := by
  induction xs with
  | nil => simp
  | cons x xs ih =>
    rw [List.nodup_cons] at h
    rw [List.countP_cons, ih h.2]
    by_cases hxB : x = B
    · subst hxB
      simp [h.1]
    · simp [hxB, Ne.symm hxB]

theorem countP_listPairs_eq {l : List Nat} (h : l.Nodup) {A B : Nat} (hAB : A ≠ B) :
    (listPairs l).countP
        (fun q => decide ((q.1 = A ∧ q.2 = B) ∨ (q.1 = B ∧ q.2 = A))) =
      if A ∈ l ∧ B ∈ l then 1 else 0 := by
  induction l with
  | nil => simp [listPairs]
  | cons x xs ihl =>
    rw [listPairs, List.countP_append, List.countP_map]
    rw [List.nodup_cons] at h
    obtain ⟨hx, hxs⟩ := h
    rw [ihl hxs]
    by_cases hxA : x = A
    · subst hxA
      have hc : xs.countP
          ((fun q => decide ((q.1 = x ∧ q.2 = B) ∨ (q.1 = B ∧ q.2 = x))) ∘ (fun y => (x, y))) =
          xs.countP (fun y => decide (y = B)) := by
        apply List.countP_congr
        intro y _
        rw [Function.comp_apply, decide_eq_true_eq, decide_eq_true_eq]
        constructor
        · rintro (⟨_, h2⟩ | ⟨h1, _⟩)
          · exact h2
          · exact absurd h1 hAB
        · exact fun h2 => Or.inl ⟨rfl, h2⟩
      rw [hc, countP_eq_mem hxs]
      have hBx : B ≠ x := fun he => hAB he.symm
      by_cases hB : B ∈ xs
      · rw [if_pos hB, if_neg (fun hc2 => hx hc2.1),
          if_pos ⟨List.mem_cons_self _ _, List.mem_cons_of_mem _ hB⟩]
      · have hng : ¬(x ∈ x :: xs ∧ B ∈ x :: xs) := by
          rintro ⟨_, hBmem⟩
          rcases List.mem_cons.1 hBmem with h2 | h2
          · exact hBx h2
          · exact hB h2
        rw [if_neg hB, if_neg (fun hc2 => hx hc2.1), if_neg hng]
    · by_cases hxB : x = B
      · subst hxB
        have hc : xs.countP
            ((fun q => decide ((q.1 = A ∧ q.2 = x) ∨ (q.1 = x ∧ q.2 = A))) ∘ (fun y => (x, y))) =
            xs.countP (fun y => decide (y = A)) := by
          apply List.countP_congr
          intro y _
          rw [Function.comp_apply, decide_eq_true_eq, decide_eq_true_eq]
          constructor
          · rintro (⟨h1, _⟩ | ⟨_, h2⟩)
            · exact absurd h1 hxA
            · exact h2
          · exact fun h2 => Or.inr ⟨rfl, h2⟩
        rw [hc, countP_eq_mem hxs]
        by_cases hA : A ∈ xs
        · rw [if_pos hA, if_neg (fun hc2 => hx hc2.2),
            if_pos ⟨List.mem_cons_of_mem _ hA, List.mem_cons_self _ _⟩]
        · have hng : ¬(A ∈ x :: xs ∧ x ∈ x :: xs) := by
            rintro ⟨hAmem, _⟩
            rcases List.mem_cons.1 hAmem with h2 | h2
            · exact hxA h2.symm
            · exact hA h2
          rw [if_neg hA, if_neg (fun hc2 => hx hc2.2), if_neg hng]
      · have hc : xs.countP
            ((fun q => decide ((q.1 = A ∧ q.2 = B) ∨ (q.1 = B ∧ q.2 = A))) ∘ (fun y => (x, y))) = 0 := by
          rw [List.countP_eq_zero]
          intro y _
          rw [Function.comp_apply]
          simp only [decide_eq_true_eq]
          rintro (⟨h1, _⟩ | ⟨h1, _⟩)
          · exact hxA h1
          · exact hxB h1
        rw [hc]
        have hmA : A ∈ x :: xs ↔ A ∈ xs := by
          rw [List.mem_cons]
          constructor
          · rintro (h2 | h2)
            · exact absurd h2.symm hxA
            · exact h2
          · exact Or.inr
        have hmB : B ∈ x :: xs ↔ B ∈ xs := by
          rw [List.mem_cons]
          constructor
          · rintro (h2 | h2)
            · exact absurd h2.symm hxB
            · exact h2
          · exact Or.inr
        by_cases hA : A ∈ xs ∧ B ∈ xs
        · rw [if_pos hA, if_pos ⟨hmA.2 hA.1, hmB.2 hA.2⟩]
        · rw [if_neg hA, if_neg (fun hc2 => hA ⟨hmA.1 hc2.1, hmB.1 hc2.2⟩)]

theorem countP_listPairs_zero {l : List Nat} (h : l.Nodup) (A : Nat) :
    (listPairs l).countP
        (fun q => decide ((q.1 = A ∧ q.2 = A) ∨ (q.1 = A ∧ q.2 = A))) = 0 := by
  rw [List.countP_eq_zero]
  intro q hq
  simp only [decide_eq_true_eq, or_self]
  rintro ⟨h1, h2⟩
  exact listPairs_ne h q hq (h1.trans h2.symm)

theorem matrixEntry_pair_foldl (l : List (Nat × Nat)) (m : Dict (Dict Val)) (A B : Nat)
    (hl : ∀ q ∈ l, q.1 ≠ q.2) :
    matrixEntry (l.foldl (fun m q =>
        update_user_count_dict (update_user_count_dict m q.1 q.2) q.2 q.1) m) A B =
      bumpN (matrixEntry m A B)
        (l.countP (fun q => decide ((q.1 = A ∧ q.2 = B) ∨ (q.1 = B ∧ q.2 = A)))) := by
  induction l generalizing m with
  | nil => simp [bumpN]
  | cons q rest ih =>
    rw [List.foldl_cons, List.countP_cons,
      ih _ (fun p hp => hl p (List.mem_cons_of_mem _ hp))]
    have hq := hl q (List.mem_cons_self _ _)
    rw [matrixEntry_ucd, matrixEntry_ucd]
    simp only [decide_eq_true_eq]
    by_cases h2 : q.1 = A ∧ q.2 = B
    · have h1 : ¬(q.2 = A ∧ q.1 = B) := by
        rintro ⟨ha, hb⟩
        apply hq
        rw [h2.1, ha]
      rw [if_neg h1, if_pos h2, if_pos (Or.inl h2), Nat.add_comm, bumpN_add]
      rfl
    · by_cases h1 : q.2 = A ∧ q.1 = B
      · rw [if_pos h1, if_neg h2, if_pos (Or.inr ⟨h1.2, h1.1⟩), Nat.add_comm, bumpN_add]
        rfl
      · have hno : ¬((q.1 = A ∧ q.2 = B) ∨ (q.1 = B ∧ q.2 = A)) := by
          rintro (hc | hc)
          · exact h2 hc
          · exact h1 ⟨hc.2, hc.1⟩
        rw [if_neg h1, if_neg h2, if_neg hno, Nat.add_comm, bumpN_add]
        rfl

theorem matrixEntry_accumulate (items : Dict (Finset Nat)) (m : Dict (Dict Val)) (A B : Nat) :
    matrixEntry (accumulate_counts items m) A B =
      bumpN (matrixEntry m A B)
        (items.countP (fun p => decide (A ∈ p.2 ∧ B ∈ p.2 ∧ A ≠ B))) := by
  induction items generalizing m with
  | nil => simp [accumulate_counts, bumpN]
  | cons p rest ih =>
    have hstep : accumulate_counts (p :: rest) m =
        accumulate_counts rest
          ((listPairs (sortAsc p.2)).foldl
            (fun m q => update_user_count_dict (update_user_count_dict m q.1 q.2) q.2 q.1) m) := rfl
    rw [hstep, ih, List.countP_cons,
      matrixEntry_pair_foldl _ _ _ _ (listPairs_ne (sortAsc_nodup p.2))]
    simp only [decide_eq_true_eq]
    by_cases hAB : A = B
    · subst hAB
      rw [countP_listPairs_zero (sortAsc_nodup p.2) A]
      have hz2 : ¬(A ∈ p.2 ∧ A ∈ p.2 ∧ A ≠ A) := by
        rintro ⟨_, _, hc⟩
        exact hc rfl
      rw [if_neg hz2]
      rfl
    · rw [countP_listPairs_eq (sortAsc_nodup p.2) hAB]
      by_cases hmem : A ∈ p.2 ∧ B ∈ p.2
      · have hs : A ∈ sortAsc p.2 ∧ B ∈ sortAsc p.2 := by
          rw [mem_sortAsc, mem_sortAsc]
          exact hmem
        rw [if_pos hs, if_pos ⟨hmem.1, hmem.2, hAB⟩, Nat.add_comm, bumpN_add]
      · have hs : ¬(A ∈ sortAsc p.2 ∧ B ∈ sortAsc p.2) := by
          rw [mem_sortAsc, mem_sortAsc]
          exact hmem
        rw [if_neg hs, if_neg (fun hc => hmem ⟨hc.1, hc.2.1⟩), Nat.add_comm, bumpN_add]

theorem fio_matrix {α : Type} (rows : List Row) (s : State α) :
    (form_item_objects s rows).user_sim_matrix = s.user_sim_matrix := by
  induction rows generalizing s with
  | nil => rfl
  | cons r rest ih => exact ih _

theorem fio_k {α : Type} (rows : List Row) (s : State α) :
    (form_item_objects s rows).k = s.k := by
  induction rows generalizing s with
  | nil => rfl
  | cons r rest ih => exact ih _

theorem fio_n {α : Type} (rows : List Row) (s : State α) :
    (form_item_objects s rows).n = s.n := by
  induction rows generalizing s with
  | nil => rfl
  | cons r rest ih => exact ih _

theorem fio_ensure_new {α : Type} (rows : List Row) (s : State α) :
    (form_item_objects s rows).ensure_new = s.ensure_new := by
  induction rows generalizing s with
  | nil => rfl
  | cons r rest ih => exact ih _

theorem nodupKeys_items_fio {α : Type} (rows : List Row) (s : State α)
    (h : (s.items.map Prod.fst).Nodup) :
    ((form_item_objects s rows).items.map Prod.fst).Nodup := by
  induction rows generalizing s with
  | nil => exact h
  | cons r rest ih => exact ih _ (Dict.nodupKeys_update _ _ _ h)

theorem nodupKeys_users_fio {α : Type} (rows : List Row) (s : State α)
    (h : (s.users.map Prod.fst).Nodup) :
    ((form_item_objects s rows).users.map Prod.fst).Nodup := by
  induction rows generalizing s with
  | nil => exact h
  | cons r rest ih => exact ih _ (Dict.nodupKeys_update _ _ _ h)

theorem nodup_ucd (m : Dict (Dict Val)) (x y : Nat)
    (h1 : (m.map Prod.fst).Nodup) (h2 : ∀ p ∈ m, (p.2.map Prod.fst).Nodup) :
    ((update_user_count_dict m x y).map Prod.fst).Nodup ∧
      ∀ p ∈ update_user_count_dict m x y, (p.2.map Prod.fst).Nodup := by
  constructor
  · exact Dict.nodupKeys_update _ _ _ h1
  · intro p hp
    rcases Dict.mem_update hp with h3 | h3
    · exact h2 p h3
    · subst h3
      cases hm : Dict.lookup m x with
      | none => simp [Dict.update]
      | some cd =>
        simp only [Option.getD_some]
        exact Dict.nodupKeys_update _ _ _ (h2 (x, cd) (Dict.lookup_mem hm))

theorem nodup_pair_foldl (l : List (Nat × Nat)) (m : Dict (Dict Val))
    (h1 : (m.map Prod.fst).Nodup) (h2 : ∀ p ∈ m, (p.2.map Prod.fst).Nodup) :
    (((l.foldl (fun m q =>
        update_user_count_dict (update_user_count_dict m q.1 q.2) q.2 q.1) m)).map Prod.fst).Nodup ∧
      ∀ p ∈ l.foldl (fun m q =>
        update_user_count_dict (update_user_count_dict m q.1 q.2) q.2 q.1) m,
        (p.2.map Prod.fst).Nodup := by
  induction l generalizing m with
  | nil => exact ⟨h1, h2⟩
  | cons q rest ih =>
    rw [List.foldl_cons]
    have hstep1 := nodup_ucd m q.1 q.2 h1 h2
    have hstep2 := nodup_ucd _ q.2 q.1 hstep1.1 hstep1.2
    exact ih _ hstep2.1 hstep2.2

theorem nodup_accumulate (items : Dict (Finset Nat)) (m : Dict (Dict Val))
    (h1 : (m.map Prod.fst).Nodup) (h2 : ∀ p ∈ m, (p.2.map Prod.fst).Nodup) :
    ((accumulate_counts items m).map Prod.fst).Nodup ∧
      ∀ p ∈ accumulate_counts items m, (p.2.map Prod.fst).Nodup := by
  induction items generalizing m with
  | nil => exact ⟨h1, h2⟩
  | cons p rest ih =>
    have hstep := nodup_pair_foldl (listPairs (sortAsc p.2)) m h1 h2
    exact ih _ hstep.1 hstep.2

theorem init_matrix_invariant (ids : List Nat) (acc : Dict (Dict Val))
    (h1 : (acc.map Prod.fst).Nodup) (h2 : ∀ p ∈ acc, p.2 = ([] : Dict Val)) :
    ((ids.foldl (fun m u =>
        if (Dict.lookup m u).isSome then m else m ++ [(u, [])]) acc).map Prod.fst).Nodup ∧
      ∀ p ∈ ids.foldl (fun m u =>
        if (Dict.lookup m u).isSome then m else m ++ [(u, [])]) acc, p.2 = ([] : Dict Val) := by
  induction ids generalizing acc with
  | nil => exact ⟨h1, h2⟩
  | cons u rest ih =>
    rw [List.foldl_cons]
    by_cases hu : (Dict.lookup acc u).isSome = true
    · rw [if_pos hu]
      exact ih _ h1 h2
    · rw [if_neg hu]
      apply ih
      · rw [List.map_append]
        refine List.nodup_append.2 ⟨h1, List.nodup_singleton _, ?_⟩
        intro x hx hxu
        simp only [List.map_cons, List.map_nil, List.mem_singleton] at hxu
        subst hxu
        exact hu ((Dict.lookup_isSome_iff acc x).2 hx)
      · intro p hp
        rcases List.mem_append.1 hp with h3 | h3
        · exact h2 p h3
        · rw [List.mem_singleton] at h3
          subst h3
          rfl

theorem matrixEntry_init (ids : List Nat) (k n : Nat) (en : Bool) (A B : Nat) :
    matrixEntry (initState Val ids k n en).user_sim_matrix A B = none := by
  have h := (init_matrix_invariant ids [] (by simp) (by simp)).2
  rw [matrixEntry_bind]
  cases hl : Dict.lookup (initState Val ids k n en).user_sim_matrix A with
  | none => rfl
  | some cd =>
    have hcd : cd = [] := h (A, cd) (Dict.lookup_mem hl)
    subst hcd
    rfl

theorem nodup_init_matrix (ids : List Nat) (k n : Nat) (en : Bool) :
    (((initState Val ids k n en).user_sim_matrix).map Prod.fst).Nodup ∧
      ∀ p ∈ (initState Val ids k n en).user_sim_matrix, (p.2.map Prod.fst).Nodup := by
  have h := init_matrix_invariant ids [] (by simp) (by simp)
  refine ⟨h.1, fun p hp => ?_⟩
  rw [h.2 p hp]
  simp

theorem countP_items_eq_card (rows : List Row) (s : State Val) (hsi : s.items = [])
    {A B : Nat} (hAB : A ≠ B) :
    (form_item_objects s rows).items.countP
        (fun p => decide (A ∈ p.2 ∧ B ∈ p.2 ∧ A ≠ B)) =
      (rowCovItems rows A ∩ rowCovItems rows B).card := by
  have hnd : ((form_item_objects s rows).items.map Prod.fst).Nodup := by
    apply nodupKeys_items_fio
    rw [hsi]
    simp
  have hchar : ∀ p ∈ (form_item_objects s rows).items, p.2 = rowCovUsers rows p.1 := by
    intro p hp
    have hl := Dict.lookup_eq_of_mem hnd hp
    rw [lookup_items_form_item_objects] at hl
    by_cases hm : p.1 ∈ rows.map Row.itemid
    · rw [if_pos hm, hsi] at hl
      simp only [Dict.lookup, Option.getD_none, Finset.empty_union] at hl
      injection hl with hl
      exact hl.symm
    · rw [if_neg hm, hsi] at hl
      simp [Dict.lookup] at hl
  have hkey : ∀ i, i ∈ (form_item_objects s rows).items.map Prod.fst ↔
      i ∈ rows.map Row.itemid := by
    intro i
    rw [← Dict.lookup_isSome_iff, lookup_items_form_item_objects]
    by_cases hm : i ∈ rows.map Row.itemid
    · simp [hm]
    · rw [if_neg hm, hsi]
      simp [Dict.lookup, hm]
  rw [show (form_item_objects s rows).items.countP
        (fun p => decide (A ∈ p.2 ∧ B ∈ p.2 ∧ A ≠ B)) =
      (form_item_objects s rows).items.countP
        ((fun i => decide (A ∈ rowCovUsers rows i ∧ B ∈ rowCovUsers rows i ∧ A ≠ B)) ∘ Prod.fst)
    from List.countP_congr (fun p hp => by rw [Function.comp_apply, hchar p hp])]
  rw [← List.countP_map, List.countP_eq_length_filter]
  rw [← List.toFinset_card_of_nodup (hnd.filter _)]
  congr 1
  apply Finset.ext
  intro i
  rw [List.mem_toFinset, List.mem_filter, Finset.mem_inter, decide_eq_true_eq]
  constructor
  · rintro ⟨_, hA, hB, _⟩
    exact ⟨covItems_iff_covUsers.2 hA, covItems_iff_covUsers.2 hB⟩
  · rintro ⟨hA, hB⟩
    have hA2 := covItems_iff_covUsers.1 hA
    have hB2 := covItems_iff_covUsers.1 hB
    refine ⟨?_, hA2, hB2, hAB⟩
    rw [hkey]
    exact (mem_itemids_iff_nonempty rows i).2 ⟨A, hA2⟩

theorem Dict.lookup_cons_self {V : Type} (k : Nat) (v : V) (rest : Dict V) :
    Dict.lookup ((k, v) :: rest) k = some v := by
  simp [Dict.lookup]

theorem Dict.lookup_cons_ne {V : Type} {k b : Nat} (v : V) (rest : Dict V) (h : k ≠ b) :
    Dict.lookup ((k, v) :: rest) b = Dict.lookup rest b := by
  simp [Dict.lookup, h]

theorem matrixEntry_cons_self {α : Type} (uid : Nat) (cd : Dict α) (rest : Dict (Dict α))
    (B : Nat) : matrixEntry ((uid, cd) :: rest) uid B = Dict.lookup cd B := by
  rw [matrixEntry_bind, Dict.lookup_cons_self, Option.some_bind]

theorem matrixEntry_cons_ne {α : Type} {uid A : Nat} (cd : Dict α) (rest : Dict (Dict α))
    (B : Nat) (h : uid ≠ A) :
    matrixEntry ((uid, cd) :: rest) A B = matrixEntry rest A B := by
  rw [matrixEntry_bind, Dict.lookup_cons_ne _ _ h, ← matrixEntry_bind]

theorem normalize_counts_ok (U : Dict (Finset Nat)) (a : Nat) (cd : Dict Val)
    (h : ∀ p ∈ cd, ∃ covB v', Dict.lookup U p.1 = some covB ∧
      p.2.divSqrt (a * covB.card) = some v' ∧ v'.leOne = true) :
    ∃ cd', normalize_counts U a cd = .ok cd' ∧
      (∀ b covB, Dict.lookup U b = some covB →
        Dict.lookup cd' b = (Dict.lookup cd b).bind (fun v => v.divSqrt (a * covB.card))) ∧
      (∀ b, Dict.lookup cd b = none → Dict.lookup cd' b = none) := by
  induction cd with
  | nil => exact ⟨[], rfl, fun b covB _ => rfl, fun b _ => rfl⟩
  | cons p rest ih =>
    obtain ⟨bid, v⟩ := p
    obtain ⟨covB, v', hU, hdiv, hle⟩ := h (bid, v) (List.mem_cons_self _ _)
    obtain ⟨rest', hrest, hchar, hnone⟩ := ih (fun q hq => h q (List.mem_cons_of_mem _ hq))
    refine ⟨(bid, v') :: rest', ?_, ?_, ?_⟩
    · simp only [normalize_counts, hU, hdiv, hle, if_true, hrest]
    · intro b covB' hU'
      by_cases hb : bid = b
      · subst hb
        rw [Dict.lookup_cons_self, Dict.lookup_cons_self, Option.some_bind]
        rw [hU] at hU'
        injection hU' with he
        subst he
        exact hdiv.symm
      · rw [Dict.lookup_cons_ne _ _ hb, Dict.lookup_cons_ne _ _ hb]
        exact hchar b covB' hU'
    · intro b hb
      by_cases hbid : bid = b
      · subst hbid
        rw [Dict.lookup_cons_self] at hb
        exact absurd hb (by simp)
      · rw [Dict.lookup_cons_ne _ _ hbid] at hb
        rw [Dict.lookup_cons_ne _ _ hbid]
        exact hnone b hb

theorem normalize_matrix_ok (U : Dict (Finset Nat)) (m : Dict (Dict Val))
    (h : ∀ p ∈ m, ∀ covU, Dict.lookup U p.1 = some covU →
      ∀ q ∈ p.2, ∃ covB v', Dict.lookup U q.1 = some covB ∧
        q.2.divSqrt (covU.card * covB.card) = some v' ∧ v'.leOne = true) :
    ∃ m', normalize_matrix U m = .ok m' ∧
      (∀ A covU, Dict.lookup U A = some covU → ∀ B covB, Dict.lookup U B = some covB →
        matrixEntry m' A B =
          (matrixEntry m A B).bind (fun v => v.divSqrt (covU.card * covB.card))) ∧
      (∀ A, Dict.lookup U A = none → Dict.lookup m' A = Dict.lookup m A) ∧
      (∀ A B, matrixEntry m A B = none → matrixEntry m' A B = none) := by
  induction m with
  | nil =>
    refine ⟨[], rfl, ?_, fun A _ => rfl, ?_⟩
    · intro A covU _ B covB _
      rw [matrixEntry_bind]
      rfl
    · intro A B _
      exact (matrixEntry_bind ([] : Dict (Dict Val)) A B).trans rfl
  | cons p rest ih =>
    obtain ⟨uid, cd⟩ := p
    obtain ⟨rest', hrest, hchar, hkeep, hnone⟩ :=
      ih (fun q hq => h q (List.mem_cons_of_mem _ hq))
    cases hU : Dict.lookup U uid with
    | none =>
      refine ⟨(uid, cd) :: rest', ?_, ?_, ?_, ?_⟩
      · simp only [normalize_matrix, hU, hrest]
      · intro A covU hA B covB hB
        by_cases huid : uid = A
        · subst huid
          rw [hU] at hA
          exact absurd hA (by simp)
        · rw [matrixEntry_cons_ne _ _ _ huid, matrixEntry_cons_ne _ _ _ huid]
          exact hchar A covU hA B covB hB
      · intro A hA
        by_cases huid : uid = A
        · subst huid
          rw [Dict.lookup_cons_self, Dict.lookup_cons_self]
        · rw [Dict.lookup_cons_ne _ _ huid, Dict.lookup_cons_ne _ _ huid]
          exact hkeep A hA
      · intro A B hAB
        by_cases huid : uid = A
        · subst huid
          rw [matrixEntry_cons_self] at hAB
          rw [matrixEntry_cons_self]
          exact hAB
        · rw [matrixEntry_cons_ne _ _ _ huid] at hAB
          rw [matrixEntry_cons_ne _ _ _ huid]
          exact hnone A B hAB
    | some covU =>
      obtain ⟨cd', hcdok, hcdchar, hcdnone⟩ :=
        normalize_counts_ok U covU.card cd (h (uid, cd) (List.mem_cons_self _ _) covU hU)
      refine ⟨(uid, cd') :: rest', ?_, ?_, ?_, ?_⟩
      · simp only [normalize_matrix, hU, hcdok, hrest]
      · intro A covU' hA B covB hB
        by_cases huid : uid = A
        · subst huid
          rw [hU] at hA
          injection hA with he
          subst he
          rw [matrixEntry_cons_self, matrixEntry_cons_self]
          exact hcdchar B covB hB
        · rw [matrixEntry_cons_ne _ _ _ huid, matrixEntry_cons_ne _ _ _ huid]
          exact hchar A covU' hA B covB hB
      · intro A hA
        by_cases huid : uid = A
        · subst huid
          rw [hU] at hA
          exact absurd hA (by simp)
        · rw [Dict.lookup_cons_ne _ _ huid, Dict.lookup_cons_ne _ _ huid]
          exact hkeep A hA
      · intro A B hAB
        by_cases huid : uid = A
        · subst huid
          rw [matrixEntry_cons_self] at hAB
          rw [matrixEntry_cons_self]
          exact hcdnone B hAB
        · rw [matrixEntry_cons_ne _ _ _ huid] at hAB
          rw [matrixEntry_cons_ne _ _ _ huid]
          exact hnone A B hAB

theorem divSqrt_count (c : ℚ) (m : Nat) :
    Val.divSqrt ⟨c, 0, 1⟩ m = some ⟨0, c, m⟩ := by
  simp [Val.divSqrt]

theorem leOne_normalized (c m : Nat) (hc : 0 < c) (hcm : c * c ≤ m) :
    Val.leOne ⟨0, (c : ℚ), m⟩ = true := by
  have hb : ¬((c : ℚ) ≤ 0) := by
    push_neg
    exact_mod_cast hc
  have hcm2 : (c : ℚ) * c ≤ m := by exact_mod_cast hcm
  simp only [Val.leOne, hb, if_false, decide_eq_true_eq]
  constructor
  · norm_num
  · nlinarith [hcm2]

theorem build_unfold (s : State Val) (rows : List Row) :
    form_users_distance_matrix s rows =
      match normalize_matrix (form_item_objects s (strongRows rows)).users
        (accumulate_counts (form_item_objects s (strongRows rows)).items
          (form_item_objects s (strongRows rows)).user_sim_matrix) with
      | .ok m2 => .ok { form_item_objects s (strongRows rows) with user_sim_matrix := m2 }
      | .error e => .error e := rfl

theorem build_fresh_char (ids : List Nat) (k n : Nat) (en : Bool) (rows : List Row) :
    ∃ s, form_users_distance_matrix (initState Val ids k n en) rows = .ok s ∧
      (∀ u, Dict.lookup s.users u =
        if (rowCovItems (strongRows rows) u).Nonempty
        then some (rowCovItems (strongRows rows) u) else none) ∧
      (∀ i, Dict.lookup s.items i =
        if (rowCovUsers (strongRows rows) i).Nonempty
        then some (rowCovUsers (strongRows rows) i) else none) ∧
      (∀ A B, matrixEntry s.user_sim_matrix A B =
        if A ≠ B ∧ (rowCovItems (strongRows rows) A ∩ rowCovItems (strongRows rows) B).Nonempty
        then some ⟨0,
          ((rowCovItems (strongRows rows) A ∩ rowCovItems (strongRows rows) B).card : ℚ),
          (rowCovItems (strongRows rows) A).card * (rowCovItems (strongRows rows) B).card⟩
        else none) ∧
      s.k = k ∧ s.n = n ∧ s.ensure_new = en := by
  have hinitu : (initState Val ids k n en).users = [] := rfl
  have hiniti : (initState Val ids k n en).items = [] := rfl
  have husers : ∀ u,
      Dict.lookup (form_item_objects (initState Val ids k n en) (strongRows rows)).users u =
      if (rowCovItems (strongRows rows) u).Nonempty
      then some (rowCovItems (strongRows rows) u) else none := by
    intro u
    rw [lookup_users_form_item_objects, hinitu]
    by_cases hm : u ∈ (strongRows rows).map Row.visitorid
    · rw [if_pos hm, if_pos ((mem_visitors_iff_nonempty _ u).1 hm)]
      simp [Dict.lookup]
    · rw [if_neg hm, if_neg (fun hc => hm ((mem_visitors_iff_nonempty _ u).2 hc))]
      rfl
  have hitems : ∀ i,
      Dict.lookup (form_item_objects (initState Val ids k n en) (strongRows rows)).items i =
      if (rowCovUsers (strongRows rows) i).Nonempty
      then some (rowCovUsers (strongRows rows) i) else none := by
    intro i
    rw [lookup_items_form_item_objects, hiniti]
    by_cases hm : i ∈ (strongRows rows).map Row.itemid
    · rw [if_pos hm, if_pos ((mem_itemids_iff_nonempty _ i).1 hm)]
      simp [Dict.lookup]
    · rw [if_neg hm, if_neg (fun hc => hm ((mem_itemids_iff_nonempty _ i).2 hc))]
      rfl
  have hm1 : ∀ A B, matrixEntry
      (accumulate_counts
        (form_item_objects (initState Val ids k n en) (strongRows rows)).items
        (form_item_objects (initState Val ids k n en) (strongRows rows)).user_sim_matrix) A B =
      if A ≠ B ∧ (rowCovItems (strongRows rows) A ∩ rowCovItems (strongRows rows) B).Nonempty
      then some ⟨((rowCovItems (strongRows rows) A ∩ rowCovItems (strongRows rows) B).card : ℚ),
        0, 1⟩
      else none := by
    intro A B
    rw [matrixEntry_accumulate, fio_matrix, matrixEntry_init]
    by_cases hAB : A = B
    · subst hAB
      have hz : ((form_item_objects (initState Val ids k n en) (strongRows rows)).items).countP
          (fun p => decide (A ∈ p.2 ∧ A ∈ p.2 ∧ A ≠ A)) = 0 := by
        rw [List.countP_eq_zero]
        intro p _
        simp
      rw [hz, if_neg (fun hc => hc.1 rfl)]
      rfl
    · rw [countP_items_eq_card _ _ hiniti hAB]
      by_cases hne :
          (rowCovItems (strongRows rows) A ∩ rowCovItems (strongRows rows) B).Nonempty
      · rw [if_pos ⟨hAB, hne⟩, bumpN_none _ (Finset.card_pos.2 hne)]
      · rw [if_neg (fun hc => hne hc.2)]
        have hz : (rowCovItems (strongRows rows) A ∩ rowCovItems (strongRows rows) B).card = 0 := by
          rw [Finset.card_eq_zero]
          exact Finset.not_nonempty_iff_eq_empty.1 hne
        rw [hz]
        rfl
  have hnodups := nodup_init_matrix ids k n en
  have hnodup := nodup_accumulate
    (form_item_objects (initState Val ids k n en) (strongRows rows)).items
    (form_item_objects (initState Val ids k n en) (strongRows rows)).user_sim_matrix
    (by rw [fio_matrix]; exact hnodups.1)
    (by rw [fio_matrix]; exact hnodups.2)
  have hnorm : ∀ p ∈ accumulate_counts
      (form_item_objects (initState Val ids k n en) (strongRows rows)).items
      (form_item_objects (initState Val ids k n en) (strongRows rows)).user_sim_matrix,
      ∀ covU, Dict.lookup
        (form_item_objects (initState Val ids k n en) (strongRows rows)).users p.1 = some covU →
      ∀ q ∈ p.2, ∃ covB v', Dict.lookup
        (form_item_objects (initState Val ids k n en) (strongRows rows)).users q.1 = some covB ∧
        q.2.divSqrt (covU.card * covB.card) = some v' ∧ v'.leOne = true := by
    intro p hp covU hU q hq
    have hentry : matrixEntry (accumulate_counts
        (form_item_objects (initState Val ids k n en) (strongRows rows)).items
        (form_item_objects (initState Val ids k n en) (strongRows rows)).user_sim_matrix)
        p.1 q.1 = some q.2 := by
      rw [matrixEntry_bind, Dict.lookup_eq_of_mem hnodup.1 hp, Option.some_bind]
      exact Dict.lookup_eq_of_mem (hnodup.2 p hp) hq
    rw [hm1] at hentry
    by_cases hc : p.1 ≠ q.1 ∧
        (rowCovItems (strongRows rows) p.1 ∩ rowCovItems (strongRows rows) q.1).Nonempty
    · rw [if_pos hc] at hentry
      injection hentry with hval
      have hnA : (rowCovItems (strongRows rows) p.1).Nonempty := by
        obtain ⟨x, hx⟩ := hc.2
        exact ⟨x, (Finset.mem_inter.1 hx).1⟩
      have hnB : (rowCovItems (strongRows rows) q.1).Nonempty := by
        obtain ⟨x, hx⟩ := hc.2
        exact ⟨x, (Finset.mem_inter.1 hx).2⟩
      have hUval : covU = rowCovItems (strongRows rows) p.1 := by
        have := husers p.1
        rw [hU, if_pos hnA] at this
        injection this with h2
      have hB : Dict.lookup
          (form_item_objects (initState Val ids k n en) (strongRows rows)).users q.1 =
          some (rowCovItems (strongRows rows) q.1) := by
        rw [husers q.1, if_pos hnB]
      refine ⟨rowCovItems (strongRows rows) q.1,
        ⟨0, ((rowCovItems (strongRows rows) p.1 ∩ rowCovItems (strongRows rows) q.1).card : ℚ),
          covU.card * (rowCovItems (strongRows rows) q.1).card⟩, hB, ?_, ?_⟩
      · rw [← hval, divSqrt_count]
      · rw [hUval]
        exact leOne_normalized _ _ (Finset.card_pos.2 hc.2)
          (Nat.mul_le_mul
            (Finset.card_le_card (Finset.inter_subset_left))
            (Finset.card_le_card (Finset.inter_subset_right)))
    · rw [if_neg hc] at hentry
      exact absurd hentry (by simp)
  obtain ⟨m2, hok, hchar, hkeep, hnone⟩ := normalize_matrix_ok
    (form_item_objects (initState Val ids k n en) (strongRows rows)).users
    (accumulate_counts
      (form_item_objects (initState Val ids k n en) (strongRows rows)).items
      (form_item_objects (initState Val ids k n en) (strongRows rows)).user_sim_matrix)
    hnorm
  refine ⟨{ form_item_objects (initState Val ids k n en) (strongRows rows) with
      user_sim_matrix := m2 }, ?_, husers, hitems, ?_, ?_, ?_, ?_⟩
  · rw [build_unfold, hok]
  · intro A B
    show matrixEntry m2 A B = _
    by_cases hc : A ≠ B ∧
        (rowCovItems (strongRows rows) A ∩ rowCovItems (strongRows rows) B).Nonempty
    · have hnA : (rowCovItems (strongRows rows) A).Nonempty := by
        obtain ⟨x, hx⟩ := hc.2
        exact ⟨x, (Finset.mem_inter.1 hx).1⟩
      have hnB : (rowCovItems (strongRows rows) B).Nonempty := by
        obtain ⟨x, hx⟩ := hc.2
        exact ⟨x, (Finset.mem_inter.1 hx).2⟩
      have hA : Dict.lookup
          (form_item_objects (initState Val ids k n en) (strongRows rows)).users A =
          some (rowCovItems (strongRows rows) A) := by
        rw [husers A, if_pos hnA]
      have hB : Dict.lookup
          (form_item_objects (initState Val ids k n en) (strongRows rows)).users B =
          some (rowCovItems (strongRows rows) B) := by
        rw [husers B, if_pos hnB]
      rw [hchar A _ hA B _ hB, hm1, if_pos hc, if_pos hc, Option.some_bind, divSqrt_count]
    · rw [if_neg hc]
      apply hnone
      rw [hm1, if_neg hc]
  · show (form_item_objects (initState Val ids k n en) (strongRows rows)).k = k
    rw [fio_k]
    rfl
  · show (form_item_objects (initState Val ids k n en) (strongRows rows)).n = n
    rw [fio_n]
    rfl
  · show (form_item_objects (initState Val ids k n en) (strongRows rows)).ensure_new = en
    rw [fio_ensure_new]
    rfl


theorem real_div_sqrt_bounds (c d : Nat) (hc : 0 < c) (hcd : c * c ≤ d) :
    0 < (c : ℝ) / Real.sqrt d ∧ (c : ℝ) / Real.sqrt d ≤ 1 := by
  have hd : 0 < d := lt_of_lt_of_le (Nat.mul_pos hc hc) hcd
  have hsd : 0 < Real.sqrt d := Real.sqrt_pos.2 (by exact_mod_cast hd)
  constructor
  · exact div_pos (by exact_mod_cast hc) hsd
  · rw [div_le_one hsd]
    have h2 : ((c : ℝ)) ^ 2 ≤ (d : ℝ) := by
      rw [sq]
      exact_mod_cast hcd
    calc (c : ℝ) = Real.sqrt ((c : ℝ) ^ 2) := (Real.sqrt_sq (by positivity)).symm
      _ ≤ Real.sqrt d := Real.sqrt_le_sqrt h2

theorem fio_users_eq_self {α : Type} (rows : List Row) (s : State α)
    (h : ∀ r ∈ rows, ∃ cov, Dict.lookup s.users r.visitorid = some cov ∧ r.itemid ∈ cov) :
    (form_item_objects s rows).users = s.users := by
  induction rows generalizing s with
  | nil => rfl
  | cons r rest ih =>
    obtain ⟨cov, hcov, hmem⟩ := h r (List.mem_cons_self _ _)
    have hupd : s.users.update r.visitorid (fun o => insert r.itemid (o.getD ∅)) = s.users :=
      Dict.update_eq_self _ hcov (by simp [Finset.insert_eq_self.2 hmem])
    have hstep : form_item_objects s (r :: rest) =
        form_item_objects
          { s with
            items := s.items.update r.itemid (fun o => insert r.visitorid (o.getD ∅))
            users := s.users.update r.visitorid (fun o => insert r.itemid (o.getD ∅)) } rest := rfl
    have h2 : ∀ r' ∈ rest, ∃ cov',
        Dict.lookup ({ s with
          items := s.items.update r.itemid (fun o => insert r.visitorid (o.getD ∅)),
          users := s.users.update r.visitorid (fun o => insert r.itemid (o.getD ∅)) } :
            State α).users r'.visitorid = some cov' ∧ r'.itemid ∈ cov' := by
      intro r' hr'
      obtain ⟨cov', hcov', hm'⟩ := h r' (List.mem_cons_of_mem _ hr')
      refine ⟨cov', ?_, hm'⟩
      show Dict.lookup (s.users.update r.visitorid
        (fun o => insert r.itemid (o.getD ∅))) r'.visitorid = some cov'
      rw [hupd]
      exact hcov'
    rw [hstep, ih _ h2]
    exact hupd

theorem fio_items_eq_self {α : Type} (rows : List Row) (s : State α)
    (h : ∀ r ∈ rows, ∃ cov, Dict.lookup s.items r.itemid = some cov ∧ r.visitorid ∈ cov) :
    (form_item_objects s rows).items = s.items := by
  induction rows generalizing s with
  | nil => rfl
  | cons r rest ih =>
    obtain ⟨cov, hcov, hmem⟩ := h r (List.mem_cons_self _ _)
    have hupd : s.items.update r.itemid (fun o => insert r.visitorid (o.getD ∅)) = s.items :=
      Dict.update_eq_self _ hcov (by simp [Finset.insert_eq_self.2 hmem])
    have hstep : form_item_objects s (r :: rest) =
        form_item_objects
          { s with
            items := s.items.update r.itemid (fun o => insert r.visitorid (o.getD ∅))
            users := s.users.update r.visitorid (fun o => insert r.itemid (o.getD ∅)) } rest := rfl
    have h2 : ∀ r' ∈ rest, ∃ cov',
        Dict.lookup ({ s with
          items := s.items.update r.itemid (fun o => insert r.visitorid (o.getD ∅)),
          users := s.users.update r.visitorid (fun o => insert r.itemid (o.getD ∅)) } :
            State α).items r'.itemid = some cov' ∧ r'.visitorid ∈ cov' := by
      intro r' hr'
      obtain ⟨cov', hcov', hm'⟩ := h r' (List.mem_cons_of_mem _ hr')
      refine ⟨cov', ?_, hm'⟩
      show Dict.lookup (s.items.update r.itemid
        (fun o => insert r.visitorid (o.getD ∅))) r'.itemid = some cov'
      rw [hupd]
      exact hcov'
    rw [hstep, ih _ h2]
    exact hupd


theorem rank_inner_char (en : Bool) (tc : Finset Nat) (sim : ℚ) (l : List Nat)
    (hl : l.Nodup) (d : Dict ℚ) (i : Nat) :
    Dict.lookup (l.foldl (fun items_rank item_id =>
        if en = true ∧ item_id ∈ tc then items_rank
        else items_rank.update item_id (fun o =>
          match o with
          | some sc => sc + sim * 1
          | none => sim * 1)) d) i =
      if i ∈ l ∧ ¬(en = true ∧ i ∈ tc) then
        some (((Dict.lookup d i).getD 0) + sim * 1)
      else Dict.lookup d i := by
  induction l generalizing d with
  | nil => simp
  | cons x xs ih =>
    rw [List.nodup_cons] at hl
    rw [List.foldl_cons, ih hl.2]
    by_cases hskipx : en = true ∧ x ∈ tc
    · rw [if_pos hskipx]
      by_cases hmem : i ∈ xs ∧ ¬(en = true ∧ i ∈ tc)
      · rw [if_pos hmem, if_pos ⟨List.mem_cons_of_mem _ hmem.1, hmem.2⟩]
      · rw [if_neg hmem, if_neg ?_]
        rintro ⟨hin, hns⟩
        rcases List.mem_cons.1 hin with rfl | hin2
        · exact hns hskipx
        · exact hmem ⟨hin2, hns⟩
    · rw [if_neg hskipx]
      by_cases hix : x = i
      · subst hix
        have hnx : ¬(x ∈ xs ∧ ¬(en = true ∧ x ∈ tc)) := fun hc => hl.1 hc.1
        rw [if_neg hnx, Dict.lookup_update_self,
          if_pos ⟨List.mem_cons_self _ _, hskipx⟩]
        cases ho : Dict.lookup d x with
        | none => simp
        | some sc => simp
      · rw [Dict.lookup_update_ne _ _ hix]
        by_cases hmem : i ∈ xs ∧ ¬(en = true ∧ i ∈ tc)
        · rw [if_pos hmem, if_pos ⟨List.mem_cons_of_mem _ hmem.1, hmem.2⟩]
        · rw [if_neg hmem, if_neg ?_]
          rintro ⟨hin, hns⟩
          rcases List.mem_cons.1 hin with h2 | hin2
          · exact hix h2.symm
          · exact hmem ⟨hin2, hns⟩

theorem rank_inner_nodup (en : Bool) (tc : Finset Nat) (sim : ℚ) (l : List Nat)
    (d : Dict ℚ) (hd : (d.map Prod.fst).Nodup) :
    ((l.foldl (fun items_rank item_id =>
        if en = true ∧ item_id ∈ tc then items_rank
        else items_rank.update item_id (fun o =>
          match o with
          | some sc => sc + sim * 1
          | none => sim * 1)) d).map Prod.fst).Nodup := by
  induction l generalizing d with
  | nil => exact hd
  | cons x xs ih =>
    rw [List.foldl_cons]
    by_cases hskip : en = true ∧ x ∈ tc
    · rw [if_pos hskip]
      exact ih _ hd
    · rw [if_neg hskip]
      exact ih _ (Dict.nodupKeys_update _ _ _ hd)

theorem rank_fold_char (s : StateQ) (u : Nat) (tc : Finset Nat) (rel : List Nat) :
    ∀ (d0 r : Dict ℚ),
      rel.foldlM (fun items_rank user_id =>
        match Dict.lookup s.users user_id with
        | none => none
        | some similar_cov =>
          match matrixEntry s.user_sim_matrix u user_id with
          | none => none
          | some similarity =>
            some ((sortAsc similar_cov).foldl
              (fun items_rank item_id =>
                if s.ensure_new = true ∧ item_id ∈ tc then items_rank
                else items_rank.update item_id (fun o =>
                  match o with
                  | some sc => sc + similarity * 1
                  | none => similarity * 1))
              items_rank)) d0 = some r →
      ∀ i, Dict.lookup r i =
        if s.ensure_new = true ∧ i ∈ tc then Dict.lookup d0 i
        else if rel.filter (fun b => decide (i ∈ coUserCov s b)) = [] then Dict.lookup d0 i
        else some (((Dict.lookup d0 i).getD 0) +
          ((rel.filter (fun b => decide (i ∈ coUserCov s b))).map
            (fun b => simTo s u b * 1)).sum) := by
  induction rel with
  | nil =>
    intro d0 r hr i
    simp only [List.foldlM_nil] at hr
    injection hr with hr
    subst hr
    simp
  | cons b rest ih =>
    intro d0 r hr i
    rw [List.foldlM_cons] at hr
    cases hlook : Dict.lookup s.users b with
    | none =>
      rw [hlook] at hr
      exact absurd hr (by simp)
    | some cov_b =>
      rw [hlook] at hr
      cases hsim : matrixEntry s.user_sim_matrix u b with
      | none =>
        rw [hsim] at hr
        exact absurd hr (by simp)
      | some sim_b =>
        rw [hsim] at hr
        simp only [Option.some_bind] at hr
        have hinner := rank_inner_char s.ensure_new tc sim_b (sortAsc cov_b)
          (sortAsc_nodup cov_b) d0 i
        have hcov : coUserCov s b = cov_b := by
          unfold coUserCov
          rw [hlook]
          rfl
        have hsimTo : simTo s u b = sim_b := by
          unfold simTo
          rw [hsim]
          rfl
        rw [ih _ _ hr i]
        by_cases hskip : s.ensure_new = true ∧ i ∈ tc
        · rw [if_pos hskip, if_pos hskip, hinner,
            if_neg (fun hc => hc.2 hskip)]
        · rw [if_neg hskip, if_neg hskip]
          by_cases hib : i ∈ coUserCov s b
          · have hfc : (b :: rest).filter (fun b => decide (i ∈ coUserCov s b)) =
                b :: rest.filter (fun b => decide (i ∈ coUserCov s b)) := by
              simp [List.filter_cons, hib]
            rw [hfc]
            have hlook1 : Dict.lookup ((sortAsc cov_b).foldl
                (fun items_rank item_id =>
                  if s.ensure_new = true ∧ item_id ∈ tc then items_rank
                  else items_rank.update item_id (fun o =>
                    match o with
                    | some sc => sc + sim_b * 1
                    | none => sim_b * 1)) d0) i =
                some (((Dict.lookup d0 i).getD 0) + sim_b * 1) := by
              rw [hinner, if_pos ⟨mem_sortAsc.2 (hcov ▸ hib), hskip⟩]
            rw [if_neg (List.cons_ne_nil _ _)]
            by_cases hrest : rest.filter (fun b => decide (i ∈ coUserCov s b)) = []
            · rw [if_pos hrest, hlook1, hrest]
              rw [List.map_cons, List.map_nil, List.sum_cons, List.sum_nil,
                hsimTo, add_zero]
            · rw [if_neg hrest, hlook1]
              simp only [Option.getD_some]
              rw [List.map_cons, List.sum_cons, hsimTo, add_assoc]
          · have hfc : (b :: rest).filter (fun b => decide (i ∈ coUserCov s b)) =
                rest.filter (fun b => decide (i ∈ coUserCov s b)) := by
              simp [List.filter_cons, hib]
            rw [hfc]
            have hlook1 : Dict.lookup ((sortAsc cov_b).foldl
                (fun items_rank item_id =>
                  if s.ensure_new = true ∧ item_id ∈ tc then items_rank
                  else items_rank.update item_id (fun o =>
                    match o with
                    | some sc => sc + sim_b * 1
                    | none => sim_b * 1)) d0) i = Dict.lookup d0 i := by
              rw [hinner, if_neg ?_]
              rintro ⟨hmem, -⟩
              exact hib (hcov ▸ mem_sortAsc.1 hmem)
            rw [hlook1]

theorem rank_fold_nodup (s : StateQ) (u : Nat) (tc : Finset Nat) (rel : List Nat) :
    ∀ (d0 r : Dict ℚ), (d0.map Prod.fst).Nodup →
      rel.foldlM (fun items_rank user_id =>
        match Dict.lookup s.users user_id with
        | none => none
        | some similar_cov =>
          match matrixEntry s.user_sim_matrix u user_id with
          | none => none
          | some similarity =>
            some ((sortAsc similar_cov).foldl
              (fun items_rank item_id =>
                if s.ensure_new = true ∧ item_id ∈ tc then items_rank
                else items_rank.update item_id (fun o =>
                  match o with
                  | some sc => sc + similarity * 1
                  | none => similarity * 1))
              items_rank)) d0 = some r →
      (r.map Prod.fst).Nodup := by
  induction rel with
  | nil =>
    intro d0 r hd0 hr
    simp only [List.foldlM_nil] at hr
    injection hr with hr
    subst hr
    exact hd0
  | cons b rest ih =>
    intro d0 r hd0 hr
    rw [List.foldlM_cons] at hr
    cases hlook : Dict.lookup s.users b with
    | none =>
      rw [hlook] at hr
      exact absurd hr (by simp)
    | some cov_b =>
      rw [hlook] at hr
      cases hsim : matrixEntry s.user_sim_matrix u b with
      | none =>
        rw [hsim] at hr
        exact absurd hr (by simp)
      | some sim_b =>
        rw [hsim] at hr
        simp only [Option.some_bind] at hr
        exact ih _ _ (rank_inner_nodup _ _ _ _ _ hd0) hr

theorem rank_potential_items_char (s : StateQ) (u : Nat) (tc : Finset Nat)
    (htc : Dict.lookup s.users u = some tc) (rel : List Nat) (r : Dict ℚ)
    (hr : rank_potential_items s u rel = some r) :
    (∀ i, Dict.lookup r i =
      if s.ensure_new = true ∧ i ∈ tc then none
      else if rel.filter (fun b => decide (i ∈ coUserCov s b)) = [] then none
      else some (((rel.filter (fun b => decide (i ∈ coUserCov s b))).map
        (fun b => simTo s u b * 1)).sum)) ∧
    (r.map Prod.fst).Nodup := by
  unfold rank_potential_items at hr
  rw [htc] at hr
  constructor
  · intro i
    have := rank_fold_char s u tc rel [] r hr i
    rw [this]
    by_cases h1 : s.ensure_new = true ∧ i ∈ tc
    · rw [if_pos h1, if_pos h1]
      rfl
    · rw [if_neg h1, if_neg h1]
      by_cases h2 : rel.filter (fun b => decide (i ∈ coUserCov s b)) = []
      · rw [if_pos h2, if_pos h2]
        rfl
      · rw [if_neg h2, if_neg h2]
        show some (((Dict.lookup ([] : Dict ℚ) i).getD 0) + _) = _
        rw [show Dict.lookup ([] : Dict ℚ) i = none from rfl]
        rw [Option.getD_none, zero_add]
  · exact rank_fold_nodup s u tc rel [] r (by simp) hr


theorem related_take (k : Nat) (l : List (Nat × ℚ)) :
    (if k ≤ l.length then (l.take k).map (fun x => x.1) else l.map (fun x => x.1)) =
    (l.take k).map (fun x => x.1) := by
  by_cases h : k ≤ l.length
  · rw [if_pos h]
  · rw [if_neg h, List.take_of_length_le (Nat.le_of_lt (Nat.lt_of_not_le h))]

theorem get_top_n_items_eq (n : Nat) (d : Dict ℚ) :
    get_top_n_items n d =
      ((stableSort (fun x y => y.2 ≤ x.2) d).map (fun x => x.1)).take n := by
  simp only [get_top_n_items]
  by_cases h : ((stableSort (fun x y => y.2 ≤ x.2) d).map (fun x => x.1)).length < n
  · rw [if_pos h, List.take_of_length_le (Nat.le_of_lt h)]
  · rw [if_neg h]

theorem make_recommendation_ok_char (s : StateQ) (user_id : Nat) (l : List Nat)
    (h : make_recommendation s user_id = .ok l) :
    ∃ tc rel items_rank,
      Dict.lookup s.users user_id = some tc ∧
      Dict.lookup s.user_sim_matrix user_id = some rel ∧
      rel.length ≠ 0 ∧
      rank_potential_items s user_id
        (((stableSort (fun x y => y.2 ≤ x.2) rel).take s.k).map (fun x => x.1)) =
        some items_rank ∧
      0 < items_rank.length ∧
      l = get_top_n_items s.n items_rank := by
  cases hu : Dict.lookup s.users user_id with
  | none =>
    simp only [make_recommendation, hu] at h
    exact absurd h (by simp)
  | some tc =>
    cases hm : Dict.lookup s.user_sim_matrix user_id with
    | none =>
      simp only [make_recommendation, hu, hm] at h
      exact absurd h (by simp)
    | some rel =>
      simp only [make_recommendation, hu, hm] at h
      by_cases hlen : rel.length = 0
      · rw [if_pos hlen] at h
        exact absurd h (by simp)
      · rw [if_neg hlen] at h
        rw [related_take] at h
        cases hr : rank_potential_items s user_id
            (((stableSort (fun x y => y.2 ≤ x.2) rel).take s.k).map (fun x => x.1)) with
        | none =>
          rw [hr] at h
          exact absurd h (by simp)
        | some ir =>
          rw [hr] at h
          simp only [] at h
          by_cases hpos : 0 < ir.length
          · rw [if_pos hpos] at h
            by_cases hen : s.ensure_new = true ∧ ir.length = 0
            · rw [if_pos hen] at h
              exact absurd h (by simp)
            · rw [if_neg hen] at h
              injection h with h
              exact ⟨tc, rel, ir, rfl, rfl, hlen, hr, hpos, h.symm⟩
          · rw [if_neg hpos] at h
            exact absurd h (by simp)


/-- C5: `make_recommendation` returns at most `n` item ids, and when
`ensure_new` is enabled no returned item is among the target user's
covered items. -/
theorem C5_recommendation_size_and_novelty (s : StateQ) (user_id : Nat) (l : List Nat)
    (h : make_recommendation s user_id = .ok l) :
    l.length ≤ s.n ∧
    (s.ensure_new = true →
      ∀ tc, Dict.lookup s.users user_id = some tc → ∀ i ∈ l, i ∉ tc) := by
  obtain ⟨tc, rel, ir, hu, hm, hlen, hr, hpos, hl⟩ :=
    make_recommendation_ok_char s user_id l h
  constructor
  · rw [hl, get_top_n_items_eq, List.length_take]
    exact min_le_left _ _
  · intro hen tc' htc' i hi hitc
    rw [hu] at htc'
    injection htc' with htc'
    subst htc'
    have hchar := (rank_potential_items_char s user_id tc hu _ _ hr).1 i
    have hmem : i ∈ ir.map Prod.fst := by
      rw [hl, get_top_n_items_eq] at hi
      have h2 := List.take_subset _ _ hi
      obtain ⟨p, hp, hpi⟩ := List.mem_map.1 h2
      have hpir : p ∈ ir := (stableSort_perm _ _).mem_iff.1 hp
      exact hpi ▸ List.mem_map_of_mem _ hpir
    have hsome := (Dict.lookup_isSome_iff ir i).2 hmem
    rw [hchar, if_pos ⟨hen, hitc⟩] at hsome
    simp at hsome

/-- Closed instance of C5 on the concrete ranking state. -/
theorem C5_recommendation_size_and_novelty_witness :
    make_recommendation rankState 1 = .ok [12] ∧
    ([12].length ≤ rankState.n ∧
      (rankState.ensure_new = true →
        ∀ tc, Dict.lookup rankState.users 1 = some tc → ∀ i ∈ [12], i ∉ tc)) := by
  have h : make_recommendation rankState 1 = .ok [12] := by
    with_unfolding_all decide
  exact ⟨h, C5_recommendation_size_and_novelty rankState 1 [12] h⟩

/-- C3: for a known user with a similarity sub-mapping, the recommendation is
built by sorting co-users descending by similarity, taking the top `k` (all if
fewer), scoring each surviving candidate item by the sum over selected co-users
covering it of their similarity (weight 1 per shared item), sorting candidates
descending by score and truncating to `n`. -/
theorem C3_ranking_pipeline (s : StateQ) (u : Nat) (tc : Finset Nat)
    (rel : Dict ℚ) (l : List Nat)
    (hu : Dict.lookup s.users u = some tc)
    (hm : Dict.lookup s.user_sim_matrix u = some rel)
    (h : make_recommendation s u = .ok l) :
    ∃ rel_sorted : Dict ℚ, ∃ items_rank : Dict ℚ, ∃ full : List Nat,
      rel_sorted.Perm rel ∧
      rel_sorted.Pairwise (fun x y : Nat × ℚ => y.2 ≤ x.2) ∧
      rank_potential_items s u ((rel_sorted.take s.k).map (fun x => x.1)) =
        some items_rank ∧
      (∀ i, Dict.lookup items_rank i =
        if s.ensure_new = true ∧ i ∈ tc then none
        else if ((rel_sorted.take s.k).map (fun x => x.1)).filter
            (fun b => decide (i ∈ coUserCov s b)) = [] then none
        else some (((((rel_sorted.take s.k).map (fun x => x.1)).filter
            (fun b => decide (i ∈ coUserCov s b))).map
          (fun b => simTo s u b * 1)).sum)) ∧
      full.Perm (items_rank.map Prod.fst) ∧
      full.Pairwise (fun i j =>
        (Dict.lookup items_rank j).getD 0 ≤ (Dict.lookup items_rank i).getD 0) ∧
      l = full.take s.n := by
  obtain ⟨tc', rel', ir, hu', hm', hlen, hr, hpos, hl⟩ :=
    make_recommendation_ok_char s u l h
  rw [hu] at hu'
  injection hu' with hu'
  subst hu'
  rw [hm] at hm'
  injection hm' with hm'
  subst hm'
  have htot : ∀ a b : Nat × ℚ, ((fun x y : Nat × ℚ => decide (y.2 ≤ x.2)) a b ||
      (fun x y : Nat × ℚ => decide (y.2 ≤ x.2)) b a) = true := by
    intro a b
    rcases le_total b.2 a.2 with h2 | h2 <;> simp [h2]
  have htr : ∀ a b c : Nat × ℚ,
      (fun x y : Nat × ℚ => decide (y.2 ≤ x.2)) a b = true →
      (fun x y : Nat × ℚ => decide (y.2 ≤ x.2)) b c = true →
      (fun x y : Nat × ℚ => decide (y.2 ≤ x.2)) a c = true := by
    intro a b c hab hbc
    simp only [decide_eq_true_eq] at *
    exact le_trans hbc hab
  have hchar := rank_potential_items_char s u tc hu _ _ hr
  refine ⟨stableSort (fun x y => y.2 ≤ x.2) rel, ir,
    (stableSort (fun x y => y.2 ≤ x.2) ir).map (fun x => x.1),
    stableSort_perm _ _, ?_, hr, hchar.1, ?_, ?_, ?_⟩
  · exact (sorted_stableSort _ htot htr rel).imp (fun hab => by simpa using hab)
  · exact (stableSort_perm _ _).map _
  · rw [List.pairwise_map]
    refine (sorted_stableSort _ htot htr ir).imp_of_mem ?_
    intro a b ha hb hab
    have hair : a ∈ ir := (stableSort_perm _ _).mem_iff.1 ha
    have hbir : b ∈ ir := (stableSort_perm _ _).mem_iff.1 hb
    rw [Dict.lookup_eq_of_mem hchar.2 hair, Dict.lookup_eq_of_mem hchar.2 hbir]
    simpa using hab
  · rw [hl, get_top_n_items_eq]

/-- Closed instance of C3 on the concrete ranking state. -/
theorem C3_ranking_pipeline_witness :
    Dict.lookup rankState.users 1 = some ({10, 11} : Finset Nat) ∧
    Dict.lookup rankState.user_sim_matrix 1 = some [(2, (4 : ℚ)/5)] ∧
    make_recommendation rankState 1 = .ok [12] ∧
    (∃ rel_sorted : Dict ℚ, ∃ items_rank : Dict ℚ, ∃ full : List Nat,
      rel_sorted.Perm [(2, (4 : ℚ)/5)] ∧
      rel_sorted.Pairwise (fun x y : Nat × ℚ => y.2 ≤ x.2) ∧
      rank_potential_items rankState 1 ((rel_sorted.take rankState.k).map (fun x => x.1)) =
        some items_rank ∧
      (∀ i, Dict.lookup items_rank i =
        if rankState.ensure_new = true ∧ i ∈ ({10, 11} : Finset Nat) then none
        else if ((rel_sorted.take rankState.k).map (fun x => x.1)).filter
            (fun b => decide (i ∈ coUserCov rankState b)) = [] then none
        else some (((((rel_sorted.take rankState.k).map (fun x => x.1)).filter
            (fun b => decide (i ∈ coUserCov rankState b))).map
          (fun b => simTo rankState 1 b * 1)).sum)) ∧
      full.Perm (items_rank.map Prod.fst) ∧
      full.Pairwise (fun i j =>
        (Dict.lookup items_rank j).getD 0 ≤ (Dict.lookup items_rank i).getD 0) ∧
      [12] = full.take rankState.n) := by
  have h1 : Dict.lookup rankState.users 1 = some ({10, 11} : Finset Nat) := by decide
  have h2 : Dict.lookup rankState.user_sim_matrix 1 = some [(2, (4 : ℚ)/5)] := by
    with_unfolding_all decide
  have h3 : make_recommendation rankState 1 = .ok [12] := by
    with_unfolding_all decide
  exact ⟨h1, h2, h3, C3_ranking_pipeline rankState 1 {10, 11} [(2, (4 : ℚ)/5)] [12] h1 h2 h3⟩


theorem eval_fold_skip (s : StateQ) (test_data : List Row) (users : List Nat)
    (h : ∀ u ∈ users, ∃ c, make_recommendation s u = .code c) :
    ∀ acc : EvalAcc, users.foldlM (evaluate_step s test_data) acc = .ok acc := by
  induction users with
  | nil => intro acc; rfl
  | cons u rest ih =>
    intro acc
    rw [List.foldlM_cons]
    have hch : compute_n_hit s u
        (uniqueFirst ((test_data.filter (fun r => r.visitorid = u)).map
          (fun r => r.itemid))) = .notAList := by
      obtain ⟨c, hc⟩ := h u (List.mem_cons_self u rest)
      unfold compute_n_hit
      rw [hc]
    have hstep : evaluate_step s test_data acc u = .ok acc := by
      unfold evaluate_step
      simp only [hch]
    rw [hstep]
    exact ih (fun u hu => h u (List.mem_cons_of_mem _ hu)) acc

/-- C7: when every unique test user gets an integer error code from the
ranker, no user is evaluable and `evaluate` raises the NoValidUsers division
error instead of returning metrics. -/
theorem C7_no_valid_users (s : StateQ) (test_data : List Row)
    (h : ∀ u ∈ uniqueFirst (test_data.map (fun r => r.visitorid)),
      ∃ c, make_recommendation s u = .code c) :
    evaluate s test_data = .error .noValidUsers := by
  unfold evaluate
  simp only [eval_fold_skip s test_data _ h]
  simp

/-- Closed instance of C7: the untrained model knows no user, so the single
test user is skipped and evaluation fails with NoValidUsers. -/
theorem C7_no_valid_users_witness :
    (∀ u ∈ uniqueFirst (([⟨5, 10, 2⟩] : List Row).map (fun r => r.visitorid)),
      ∃ c, make_recommendation emptyModelState u = .code c) ∧
    evaluate emptyModelState [⟨5, 10, 2⟩] = .error .noValidUsers := by
  have h : ∀ u ∈ uniqueFirst (([⟨5, 10, 2⟩] : List Row).map (fun r => r.visitorid)),
      ∃ c, make_recommendation emptyModelState u = .code c := by
    intro u hu
    have he : uniqueFirst (([⟨5, 10, 2⟩] : List Row).map (fun r => r.visitorid)) =
        [5] := by decide
    rw [he] at hu
    rcases List.mem_singleton.1 hu with rfl
    exact ⟨-2, rfl⟩
  exact ⟨h, C7_no_valid_users emptyModelState [⟨5, 10, 2⟩] h⟩

/-- C6 is false of the code: user 3 is known, has a non-empty similarity
sub-mapping, and every candidate item is filtered out, yet
`make_recommendation` raises an uncaught AssertionError rather than the
recoverable EmptyRankingAfterFiltering code, and `evaluate` propagates the
failure instead of skipping the user. The `return -3` branch sits below
`assert len(items_rank) > 0` and is unreachable. -/
theorem C6_empty_ranking_crashes :
    (Dict.lookup emptyRankState.users 3).isSome = true ∧
    Dict.lookup emptyRankState.user_sim_matrix 3 = some [(4, (1 : ℚ)/2)] ∧
    make_recommendation emptyRankState 3 = .assertionError ∧
    evaluate emptyRankState [⟨3, 11, 2⟩] = .error .assertionError := by
  refine ⟨by decide, by with_unfolding_all decide, by with_unfolding_all decide,
    by with_unfolding_all rfl⟩

/-- C4 is false of the code: on the test set restricted to the well-served
user 1 the evaluator returns the expected metrics, but adding user 3, whose
ranking empties after filtering, aborts the whole evaluation with an
AssertionError instead of skipping that user. -/
theorem C4_evaluator_crashes_instead_of_skipping :
    evaluate evalCrashState [⟨1, 12, 2⟩] = .ok ⟨1, 1, 1/3⟩ ∧
    evaluate evalCrashState evalCrashRows = .error .assertionError := by
  refine ⟨by with_unfolding_all rfl, by with_unfolding_all rfl⟩


/-- C1: for every pair of distinct users who share at least one
strong-signal (non-view) item, a fresh build stores, in each direction,
exactly |shared items| / sqrt(|covered(A)| * |covered(B)|) — held exactly as
the (numerator, radicand) pair and equal, as a real number, to that
quotient — and stores no entry for a pair sharing no item; on the
three-user scenario (U1 covers {A,B}, U2 covers {A,B,C}, U3 covers {C}) the
matrix holds sim(U1,U2) = 2/√6 and sim(U2,U3) = 1/√3 in both directions,
and no (U1,U3) entry. -/
theorem C1_similarity_matrix_values :
    (∀ (ids : List Nat) (k n : Nat) (en : Bool) (rows : List Row) (s : State Val),
      form_users_distance_matrix (initState Val ids k n en) rows = .ok s →
      ∀ A B, A ≠ B →
        ((rowCovItems (strongRows rows) A ∩ rowCovItems (strongRows rows) B).Nonempty →
          matrixEntry s.user_sim_matrix A B =
            some ⟨0,
              ((rowCovItems (strongRows rows) A ∩ rowCovItems (strongRows rows) B).card : ℚ),
              (rowCovItems (strongRows rows) A).card * (rowCovItems (strongRows rows) B).card⟩ ∧
          (((0 : ℚ) : ℝ) +
            (((rowCovItems (strongRows rows) A ∩ rowCovItems (strongRows rows) B).card : ℚ) : ℝ) /
              Real.sqrt (((rowCovItems (strongRows rows) A).card *
                (rowCovItems (strongRows rows) B).card : ℕ) : ℝ) =
            ((rowCovItems (strongRows rows) A ∩ rowCovItems (strongRows rows) B).card : ℝ) /
              Real.sqrt (((rowCovItems (strongRows rows) A).card : ℝ) *
                ((rowCovItems (strongRows rows) B).card : ℝ)))) ∧
        (rowCovItems (strongRows rows) A ∩ rowCovItems (strongRows rows) B = ∅ →
          matrixEntry s.user_sim_matrix A B = none)) ∧
    (buildMatrixEntry scenarioBuild 1 2 = some ⟨0, 2, 6⟩ ∧
     buildMatrixEntry scenarioBuild 2 1 = some ⟨0, 2, 6⟩ ∧
     buildMatrixEntry scenarioBuild 2 3 = some ⟨0, 1, 3⟩ ∧
     buildMatrixEntry scenarioBuild 3 2 = some ⟨0, 1, 3⟩ ∧
     buildMatrixEntry scenarioBuild 1 3 = none ∧
     buildMatrixEntry scenarioBuild 3 1 = none ∧
     (((0 : ℚ) : ℝ) + ((2 : ℚ) : ℝ) / Real.sqrt ((6 : Nat) : ℝ) = 2 / Real.sqrt 6) ∧
     (((0 : ℚ) : ℝ) + ((1 : ℚ) : ℝ) / Real.sqrt ((3 : Nat) : ℝ) = 1 / Real.sqrt 3)) := by
  constructor
  · intro ids k n en rows s hok A B hAB
    obtain ⟨s0, hok0, hu, hi, hmx, _, _, _⟩ := build_fresh_char ids k n en rows
    rw [hok] at hok0
    injection hok0 with hs
    subst hs
    constructor
    · intro hne
      constructor
      · rw [hmx A B, if_pos ⟨hAB, hne⟩]
      · push_cast
        rw [zero_add]
    · intro hempty
      rw [hmx A B, if_neg ?_]
      rintro ⟨_, hne⟩
      rw [hempty] at hne
      exact Finset.not_nonempty_empty hne
  · refine ⟨?_, ?_, ?_, ?_, ?_, ?_, ?_, ?_⟩
    · with_unfolding_all decide
    · with_unfolding_all decide
    · with_unfolding_all decide
    · with_unfolding_all decide
    · with_unfolding_all decide
    · with_unfolding_all decide
    · push_cast
      rw [zero_add]
    · push_cast
      rw [zero_add]

/-- C1 witness: the general statement applied to the three-user scenario at
the pair (1, 2), with both hypotheses discharged concretely. -/
theorem C1_similarity_matrix_values_witness :
    (1 : Nat) ≠ 2 ∧
    (rowCovItems (strongRows scenarioRows) 1 ∩ rowCovItems (strongRows scenarioRows) 2).Nonempty ∧
    buildMatrixEntry scenarioBuild 1 2 =
      some ⟨0,
        ((rowCovItems (strongRows scenarioRows) 1 ∩ rowCovItems (strongRows scenarioRows) 2).card : ℚ),
        (rowCovItems (strongRows scenarioRows) 1).card * (rowCovItems (strongRows scenarioRows) 2).card⟩ := by
  refine ⟨by decide, by decide, ?_⟩
  obtain ⟨s, hok, _⟩ := build_fresh_char [1, 2, 3] 80 20 true scenarioRows
  have hmain := ((C1_similarity_matrix_values.1 [1, 2, 3] 80 20 true scenarioRows s hok
    1 2 (by decide)).1 (by decide)).1
  have hsb : scenarioBuild = Except.ok s := hok
  rw [hsb]
  exact hmain

/-- C2: every similarity value stored by a completed fresh build lies in
(0, 1] as a real number — in particular a value of exactly 0 is never
stored — and a normalized value exceeding 1 makes the build fail fast with
the bound-violation assertion instead of storing or clamping it, as invoking
the build a second time on the twin-users data shows. -/
theorem C2_similarity_bounds :
    (∀ (ids : List Nat) (k n : Nat) (en : Bool) (rows : List Row) (s : State Val),
      form_users_distance_matrix (initState Val ids k n en) rows = .ok s →
      ∀ A B v, matrixEntry s.user_sim_matrix A B = some v →
        0 < (v.a : ℝ) + (v.b : ℝ) / Real.sqrt (v.d : ℝ) ∧
          (v.a : ℝ) + (v.b : ℝ) / Real.sqrt (v.d : ℝ) ≤ 1) ∧
    rebuild boundInit boundRows = .error .boundViolation := by
  constructor
  · intro ids k n en rows s hok A B v hv
    obtain ⟨s0, hok0, hu, hi, hmx, _, _, _⟩ := build_fresh_char ids k n en rows
    rw [hok] at hok0
    injection hok0 with hs
    subst hs
    rw [hmx A B] at hv
    by_cases hc : A ≠ B ∧
        (rowCovItems (strongRows rows) A ∩ rowCovItems (strongRows rows) B).Nonempty
    · rw [if_pos hc] at hv
      injection hv with hv
      subst hv
      have hc1 : 0 < (rowCovItems (strongRows rows) A ∩ rowCovItems (strongRows rows) B).card :=
        Finset.card_pos.2 hc.2
      have hc2 : (rowCovItems (strongRows rows) A ∩ rowCovItems (strongRows rows) B).card *
          (rowCovItems (strongRows rows) A ∩ rowCovItems (strongRows rows) B).card ≤
          (rowCovItems (strongRows rows) A).card * (rowCovItems (strongRows rows) B).card :=
        Nat.mul_le_mul (Finset.card_le_card Finset.inter_subset_left)
          (Finset.card_le_card Finset.inter_subset_right)
      have hb := real_div_sqrt_bounds _ _ hc1 hc2
      constructor
      · have h1 := hb.1
        push_cast at h1 ⊢
        linarith [h1]
      · have h1 := hb.2
        push_cast at h1 ⊢
        linarith [h1]
    · rw [if_neg hc] at hv
      exact absurd hv (by simp)
  · with_unfolding_all rfl

/-- C2 witness: the bound statement applied to the three-user scenario at
the stored (1,2) entry 2/√6. -/
theorem C2_similarity_bounds_witness :
    buildMatrixEntry scenarioBuild 1 2 = some ⟨0, 2, 6⟩ ∧
    (0 < ((0 : ℚ) : ℝ) + ((2 : ℚ) : ℝ) / Real.sqrt ((6 : Nat) : ℝ) ∧
      ((0 : ℚ) : ℝ) + ((2 : ℚ) : ℝ) / Real.sqrt ((6 : Nat) : ℝ) ≤ 1) := by
  refine ⟨by with_unfolding_all decide, ?_⟩
  obtain ⟨s, hok, _⟩ := build_fresh_char [1, 2, 3] 80 20 true scenarioRows
  have hb : buildMatrixEntry scenarioBuild 1 2 = some ⟨0, 2, 6⟩ := by
    with_unfolding_all decide
  have hsb : scenarioBuild = Except.ok s := hok
  rw [hsb] at hb
  exact C2_similarity_bounds.1 [1, 2, 3] 80 20 true scenarioRows s hok 1 2 ⟨0, 2, 6⟩ hb

/-- C8: the similarity matrix built by a fresh build is exactly symmetric:
for every pair of users the cell stored under A for B equals the cell stored
under B for A (same exact value), and a cell exists in one direction exactly
when it exists in the other. -/
theorem C8_matrix_symmetric :
    ∀ (ids : List Nat) (k n : Nat) (en : Bool) (rows : List Row) (s : State Val),
      form_users_distance_matrix (initState Val ids k n en) rows = .ok s →
      ∀ A B, matrixEntry s.user_sim_matrix A B = matrixEntry s.user_sim_matrix B A := by
  intro ids k n en rows s hok A B
  obtain ⟨s0, hok0, hu, hi, hmx, _, _, _⟩ := build_fresh_char ids k n en rows
  rw [hok] at hok0
  injection hok0 with hs
  subst hs
  rw [hmx A B, hmx B A]
  by_cases hc : A ≠ B ∧
      (rowCovItems (strongRows rows) A ∩ rowCovItems (strongRows rows) B).Nonempty
  · have hc' : B ≠ A ∧
        (rowCovItems (strongRows rows) B ∩ rowCovItems (strongRows rows) A).Nonempty := by
      refine ⟨hc.1.symm, ?_⟩
      rw [Finset.inter_comm]
      exact hc.2
    rw [if_pos hc, if_pos hc',
      Finset.inter_comm (rowCovItems (strongRows rows) B) (rowCovItems (strongRows rows) A),
      Nat.mul_comm (rowCovItems (strongRows rows) B).card (rowCovItems (strongRows rows) A).card]
  · have hc' : ¬(B ≠ A ∧
        (rowCovItems (strongRows rows) B ∩ rowCovItems (strongRows rows) A).Nonempty) := by
      rintro ⟨h1, h2⟩
      refine hc ⟨h1.symm, ?_⟩
      rw [Finset.inter_comm]
      exact h2
    rw [if_neg hc, if_neg hc']

/-- C8 witness: symmetry evaluated on the three-user scenario at (1, 2). -/
theorem C8_matrix_symmetric_witness :
    buildMatrixEntry scenarioBuild 1 2 = buildMatrixEntry scenarioBuild 2 1 := by
  obtain ⟨s, hok, _⟩ := build_fresh_char [1, 2, 3] 80 20 true scenarioRows
  have hsb : scenarioBuild = Except.ok s := hok
  rw [hsb]
  exact C8_matrix_symmetric [1, 2, 3] 80 20 true scenarioRows s hok 1 2

/-- C9 counterexample: on the rebuild data (U1 covers {10}, U2 covers
{10,11,12,13}) the first build stores 1/√4 = 1/2 for the pair (1,2), while a
second invocation of the build on the same model stores 1/4 + 1/√4 = 3/4 —
a different cell and a different real number — so a second build does not
yield a similarity mapping identical to the first build. -/
theorem C9_rebuild_counterexample :
    buildMatrixEntry (form_users_distance_matrix rebuildInit rebuildRows) 1 2 =
      some ⟨0, 1, 4⟩ ∧
    buildMatrixEntry (rebuild rebuildInit rebuildRows) 1 2 = some ⟨(1 : ℚ)/4, 1, 4⟩ ∧
    (⟨0, 1, 4⟩ : Val) ≠ ⟨(1 : ℚ)/4, 1, 4⟩ ∧
    (((0 : ℚ) : ℝ) + ((1 : ℚ) : ℝ) / Real.sqrt ((4 : Nat) : ℝ) ≠
      (((1 : ℚ)/4 : ℚ) : ℝ) + ((1 : ℚ) : ℝ) / Real.sqrt ((4 : Nat) : ℝ)) := by
  refine ⟨by with_unfolding_all decide, by with_unfolding_all decide,
    by with_unfolding_all decide, ?_⟩
  have h4 : Real.sqrt ((4 : Nat) : ℝ) = 2 := by
    rw [show ((4 : Nat) : ℝ) = 2 ^ 2 by norm_num, Real.sqrt_sq (by norm_num)]
  rw [h4]
  push_cast
  norm_num

/-- C9 amended: invoking the build a second time on the same model with the
same event data leaves the user and item mappings identical to the first
build, but it does not replace the similarity matrix: the raw co-occurrence
counts are accumulated on top of the previously normalized values (see the
counterexample for the resulting different matrix). -/
theorem C9_second_build_preserves_entities :
    ∀ (ids : List Nat) (k n : Nat) (en : Bool) (rows : List Row) (s1 s2 : State Val),
      form_users_distance_matrix (initState Val ids k n en) rows = .ok s1 →
      form_users_distance_matrix s1 rows = .ok s2 →
      s2.users = s1.users ∧ s2.items = s1.items := by
  intro ids k n en rows s1 s2 hok1 hok2
  obtain ⟨s0, hok0, hu, hi, _, _, _, _⟩ := build_fresh_char ids k n en rows
  rw [hok1] at hok0
  injection hok0 with hs
  subst hs
  have husers : (form_item_objects s1 (strongRows rows)).users = s1.users := by
    apply fio_users_eq_self
    intro r hr
    refine ⟨rowCovItems (strongRows rows) r.visitorid, ?_, ?_⟩
    · rw [hu r.visitorid,
        if_pos ⟨r.itemid, mem_rowCovItems.2 ⟨r, hr, rfl, rfl⟩⟩]
    · exact mem_rowCovItems.2 ⟨r, hr, rfl, rfl⟩
  have hitems : (form_item_objects s1 (strongRows rows)).items = s1.items := by
    apply fio_items_eq_self
    intro r hr
    refine ⟨rowCovUsers (strongRows rows) r.itemid, ?_, ?_⟩
    · rw [hi r.itemid,
        if_pos ⟨r.visitorid, mem_rowCovUsers.2 ⟨r, hr, rfl, rfl⟩⟩]
    · exact mem_rowCovUsers.2 ⟨r, hr, rfl, rfl⟩
  rw [build_unfold] at hok2
  cases hnorm : normalize_matrix (form_item_objects s1 (strongRows rows)).users
      (accumulate_counts (form_item_objects s1 (strongRows rows)).items
        (form_item_objects s1 (strongRows rows)).user_sim_matrix) with
  | error e =>
    rw [hnorm] at hok2
    exact absurd hok2 (by simp)
  | ok m2 =>
    rw [hnorm] at hok2
    injection hok2 with hs2
    subst hs2
    exact ⟨husers, hitems⟩

/-- C9 amended witness: on the rebuild data both builds complete, and the
user and item mappings of the second build equal those of the first. -/
theorem C9_second_build_preserves_entities_witness :
    buildUsers (rebuild rebuildInit rebuildRows) =
      buildUsers (form_users_distance_matrix rebuildInit rebuildRows) ∧
    buildItems (rebuild rebuildInit rebuildRows) =
      buildItems (form_users_distance_matrix rebuildInit rebuildRows) := by
  obtain ⟨s1, hok1, _⟩ := build_fresh_char [1, 2] 80 20 true rebuildRows
  have hr1 : form_users_distance_matrix rebuildInit rebuildRows = Except.ok s1 := hok1
  have hreb : rebuild rebuildInit rebuildRows = form_users_distance_matrix s1 rebuildRows := by
    unfold rebuild
    rw [hr1]
  cases h2 : form_users_distance_matrix s1 rebuildRows with
  | error e =>
    have hx : buildMatrixEntry (rebuild rebuildInit rebuildRows) 1 2 =
        some ⟨(1 : ℚ)/4, 1, 4⟩ := by
      with_unfolding_all decide
    rw [hreb, h2] at hx
    exact absurd hx (by simp [buildMatrixEntry])
  | ok s2 =>
    have hmain := C9_second_build_preserves_entities [1, 2] 80 20 true rebuildRows s1 s2 hok1 h2
    rw [hreb, h2, hr1]
    exact ⟨hmain.1, hmain.2⟩

/-- C10: a fresh build always completes — in particular the
`self.users[another_user_id]` lookup of the normalization loop never raises —
and every cell (A, B) of the built matrix has both A and B present in the
user store with non-empty covered items, so the `self.users[user_id]` and
`self.user_sim_matrix[target][user_id]` lookups of `rank_potential_items`
find their keys for every co-user key of a sub-mapping. -/
theorem C10_co_user_keys_safe :
    ∀ (ids : List Nat) (k n : Nat) (en : Bool) (rows : List Row),
      ∃ s, form_users_distance_matrix (initState Val ids k n en) rows = .ok s ∧
        ∀ A B v, matrixEntry s.user_sim_matrix A B = some v →
          (∃ covB, Dict.lookup s.users B = some covB ∧ covB.Nonempty) ∧
          (∃ covA, Dict.lookup s.users A = some covA ∧ covA.Nonempty) := by
  intro ids k n en rows
  obtain ⟨s, hok, hu, hi, hmx, _, _, _⟩ := build_fresh_char ids k n en rows
  refine ⟨s, hok, ?_⟩
  intro A B v hv
  rw [hmx A B] at hv
  by_cases hc : A ≠ B ∧
      (rowCovItems (strongRows rows) A ∩ rowCovItems (strongRows rows) B).Nonempty
  · obtain ⟨x, hx⟩ := hc.2
    have hxA : x ∈ rowCovItems (strongRows rows) A := (Finset.mem_inter.1 hx).1
    have hxB : x ∈ rowCovItems (strongRows rows) B := (Finset.mem_inter.1 hx).2
    constructor
    · refine ⟨rowCovItems (strongRows rows) B, ?_, ⟨x, hxB⟩⟩
      rw [hu B, if_pos ⟨x, hxB⟩]
    · refine ⟨rowCovItems (strongRows rows) A, ?_, ⟨x, hxA⟩⟩
      rw [hu A, if_pos ⟨x, hxA⟩]
  · rw [if_neg hc] at hv
    exact absurd hv (by simp)

/-- C10 witness: safety evaluated on the three-user scenario at the stored
cell (1, 2): user 2 is a stored key with non-empty covered items. -/
theorem C10_co_user_keys_safe_witness :
    ((buildUsers scenarioBuild).lookup 2).isSome = true ∧
    (((buildUsers scenarioBuild).lookup 2).getD ∅).Nonempty := by
  obtain ⟨s, hok, hsafe⟩ := C10_co_user_keys_safe [1, 2, 3] 80 20 true scenarioRows
  have hb : buildMatrixEntry scenarioBuild 1 2 = some ⟨0, 2, 6⟩ := by
    with_unfolding_all decide
  have hsb : scenarioBuild = Except.ok s := hok
  rw [hsb] at hb
  obtain ⟨⟨covB, hcb, hne⟩, -⟩ := hsafe 1 2 ⟨0, 2, 6⟩ hb
  rw [hsb]
  show (Dict.lookup s.users 2).isSome = true ∧ ((Dict.lookup s.users 2).getD ∅).Nonempty
  rw [hcb]
  exact ⟨rfl, hne⟩

end UserCF
